import Mathlib

/-!
Verification development for `delete_buffers.py`, a tool that removes buffer
cells and buffer-internal nets from a DEF netlist, using a LEF file for pin
directions.  The Python source is shallowly embedded below: lines are lists of
characters (`Str`), the regex searches of the source are embedded as
pattern-specific leftmost-match scanners, Python dictionaries become
association lists preserving insertion order (as Python dicts do), and the
string-accumulating DEF rewriter becomes a fold over the input lines.
-/

set_option maxRecDepth 4000

abbrev Str := List Char

/-- The single-quote character, written via its code point. -/
def squote : Char := Char.ofNat 39

/-- Python `str.startswith` / prefix test on character lists. -/
def startsWithL : Str → Str → Bool
  | [], _ => true
  | _ :: _, [] => false
  | p :: ps, c :: cs => p = c && startsWithL ps cs

/-- Python `sub in s` substring containment. -/
def containsSub (pat : Str) : Str → Bool
  | [] => startsWithL pat []
  | c :: cs => startsWithL pat (c :: cs) || containsSub pat cs

/-- Whitespace class of Python regexes (`\s`) and of `str.strip`/`str.split`. -/
def isWsC (c : Char) : Bool :=
  c = ' ' || c = '\t' || c = '\n' || c = '\r' || c = Char.ofNat 11 || c = Char.ofNat 12

def isDigitC (c : Char) : Bool := '0' ≤ c && c ≤ '9'

/-- Python `str.strip`. -/
def stripWs (s : Str) : Str :=
  ((s.dropWhile isWsC).reverse.dropWhile isWsC).reverse

/-- Helper for `splitWsL`: accumulates the current word in reverse. -/
def splitWsGo (cur : Str) : Str → List Str
  | [] => if cur = [] then [] else [cur.reverse]
  | c :: cs =>
    if isWsC c then
      if cur = [] then splitWsGo [] cs else cur.reverse :: splitWsGo [] cs
    else splitWsGo (c :: cur) cs

/-- Python `str.split()` (split on whitespace runs, dropping empty pieces). -/
def splitWsL (s : Str) : List Str := splitWsGo [] s

/-- Python `str.split(sep)` for a single-character separator. -/
def splitCharL (sep : Char) : Str → List Str
  | [] => [[]]
  | c :: cs =>
    let rest := splitCharL sep cs
    if c = sep then [] :: rest
    else
      match rest with
      | [] => [[c]]
      | r :: rs => (c :: r) :: rs

/-- Value of a digit string, as computed by Python `int`. -/
def digitsVal (s : Str) : Nat :=
  s.foldl (fun a c => a * 10 + (c.toNat - ('0').toNat)) 0

/-- Decimal rendering of a natural number (the digits of Python `str(n)`). -/
def natToStr (n : Nat) : Str := Nat.toDigits 10 n

/-- Decimal rendering of an integer (Python `str(i)` for `int`). -/
def intToStr (i : Int) : Str :=
  if i < 0 then '-' :: natToStr i.natAbs else natToStr i.toNat

/-- Helper for `replaceAll`: when the skip count is `k+1`, the current
character belongs to an occurrence already replaced and is dropped. -/
def replaceGo (pat rep : Str) : Nat → Str → Str
  | _, [] => []
  | 0, c :: cs =>
    if startsWithL pat (c :: cs)
    then rep ++ replaceGo pat rep (pat.length - 1) cs
    else c :: replaceGo pat rep 0 cs
  | Nat.succ k, _ :: cs => replaceGo pat rep k cs

/-- Python `s.replace(pat, rep)` (all non-overlapping occurrences, left to
right); the source only calls it with nonempty patterns. -/
def replaceAll (pat rep s : Str) : Str :=
  match pat with
  | [] => s
  | _ :: _ => replaceGo pat rep 0 s

/-! ## Embeddings of the regex searches used by the source

Each of the regexes of `delete_buffers.py` is a sequence of literal pieces and
maximal runs of characters from a class disjoint from the literals, so `re.search`
is equivalent to a leftmost scan that tries an anchored match at each position.
-/

/-- Anchored match of `- ([^\s\n]+)` (source regex at line 383 / 132). -/
def netNameAt (s : Str) : Option Str :=
  match s with
  | '-' :: ' ' :: rest =>
    let r := rest.takeWhile (fun c => !isWsC c)
    if r = [] then none else some r
  | _ => none

/-- `re.search` of `- ([^\s\n]+)`: leftmost match wins. -/
def searchNetName : Str → Option Str
  | [] => none
  | c :: cs =>
    match netNameAt (c :: cs) with
    | some r => some r
    | none => searchNetName cs

/-- Anchored match of `- ([^\s]+) ([^\s]+) \+` (component record regex). -/
def compRecAt (s : Str) : Option (Str × Str) :=
  match s with
  | '-' :: ' ' :: rest =>
    let r1 := rest.takeWhile (fun c => !isWsC c)
    if r1 = [] then none else
    match rest.drop r1.length with
    | ' ' :: rest2 =>
      let r2 := rest2.takeWhile (fun c => !isWsC c)
      if r2 = [] then none else
      match rest2.drop r2.length with
      | ' ' :: '+' :: _ => some (r1, r2)
      | _ => none
    | _ => none
  | _ => none

/-- `re.search` of `- ([^\s]+) ([^\s]+) \+`. -/
def searchCompRec : Str → Option (Str × Str)
  | [] => none
  | c :: cs =>
    match compRecAt (c :: cs) with
    | some r => some r
    | none => searchCompRec cs

/-- Anchored match of `COMPONENTS (\d+)`. -/
def compCountAt (s : Str) : Option Nat :=
  if startsWithL ("COMPONENTS ".data) s then
    let rest := s.drop 11
    let r := rest.takeWhile isDigitC
    if r = [] then none else some (digitsVal r)
  else none

/-- `re.search` of `COMPONENTS (\d+)` (source lines 98 and 341). -/
def searchCompCount : Str → Option Nat
  | [] => none
  | c :: cs =>
    match compCountAt (c :: cs) with
    | some r => some r
    | none => searchCompCount cs

/-- `re.search` of `^NETS (\d+)` (anchored at start of line). -/
def anchoredNetsCount (s : Str) : Option Nat :=
  if startsWithL ("NETS ".data) s then
    let rest := s.drop 5
    let r := rest.takeWhile isDigitC
    if r = [] then none else some (digitsVal r)
  else none

/-- Anchored match of `\( ([^\s]+) ([^\s]+) ` (net connectivity regex). -/
def parenPairAt (s : Str) : Option (Str × Str) :=
  match s with
  | '(' :: ' ' :: rest =>
    let r1 := rest.takeWhile (fun c => !isWsC c)
    if r1 = [] then none else
    match rest.drop r1.length with
    | ' ' :: rest2 =>
      let r2 := rest2.takeWhile (fun c => !isWsC c)
      if r2 = [] then none else
      match rest2.drop r2.length with
      | ' ' :: _ => some (r1, r2)
      | _ => none
    | _ => none
  | _ => none

/-- `re.search` of `\( ([^\s]+) ([^\s]+) `. -/
def searchParenPair : Str → Option (Str × Str)
  | [] => none
  | c :: cs =>
    match parenPairAt (c :: cs) with
    | some r => some r
    | none => searchParenPair cs

/-- The pin pairs extracted from one connectivity line: `line.split(')')`
followed by the paren regex on each piece (source lines 150-156). -/
def pinsOfLine (l : Str) : List (Str × Str) :=
  (splitCharL ')' l).filterMap searchParenPair

example : searchNetName ("  - mynet_1 ( a b )".data) = some ("mynet_1".data) := by decide
example : searchNetName ("  ( u_logic CK )".data) = none := by decide
example : searchCompRec ("- DFFSR_692 DFFSR + PLACED ( 40 50 ) FS".data) =
    some ("DFFSR_692".data, "DFFSR".data) := by decide
example : searchCompCount ("COMPONENTS 10875 ;".data) = some 10875 := by decide
example : anchoredNetsCount ("NETS 42 ;".data) = some 42 := by decide
example : anchoredNetsCount (" NETS 42 ;".data) = none := by decide
example : pinsOfLine ("  ( u_a CK ) ( u_b CK )".data) =
    [("u_a".data, "CK".data), ("u_b".data, "CK".data)] := by decide
example : replaceAll ("COMPONENTS 5".data) ("COMPONENTS 4".data)
    ("xx COMPONENTS 5 ;".data) = "xx COMPONENTS 4 ;".data := by decide
example : stripWs ("  END COMPONENTS \n".data) = "END COMPONENTS".data := by decide
example : splitWsL ("MACRO  INVX1 ".data) = ["MACRO".data, "INVX1".data] := by decide

/-! ## Association lists standing for Python dictionaries

Python dicts preserve insertion order; assignment to an existing key keeps its
position and replaces the value.  `updA` mirrors that.
-/

abbrev Assoc := List (Str × Str)
abbrev NetTable := List (Str × List (Str × Str))
abbrev AbsorbTable := List (Str × List Str)

/-- Python dict lookup `d[k]` (as an `Option`). -/
def lookupA {α : Type} : List (Str × α) → Str → Option α
  | [], _ => none
  | (k2, v) :: t, k => if k2 = k then some v else lookupA t k

/-- Python dict assignment `d[k] = v`. -/
def updA {α : Type} : List (Str × α) → Str → α → List (Str × α)
  | [], k, v => [(k, v)]
  | (k2, v2) :: t, k, v =>
    if k2 = k then (k2, v) :: t else (k2, v2) :: updA t k v

/-- Python membership `x in xs` for a list of strings. -/
def memStr (xs : List Str) (x : Str) : Bool := xs.any (fun y => y = x)

/-- Python membership `k in d` for a dict. -/
def keyMem {α : Type} (d : List (Str × α)) (k : Str) : Bool :=
  (d.map Prod.fst).any (fun y => y = k)

/-- Nested dict assignment `d[k1][k2] = v`.  If `k1` is absent Python raises
`KeyError`; the theorems below only use this under the invariant that `k1` is
present, and the embedding then behaves identically to the source. -/
def upd2 (d : NetTable) (k1 k2 : Str) (v : Str) : NetTable :=
  updA d k1 (updA ((lookupA d k1).getD []) k2 v)

/-- `d[k].append(x)` for a dict of lists (again assuming `k` present). -/
def appendA (d : NetTable) (k : Str) (x : Str × Str) : NetTable :=
  updA d k (((lookupA d k).getD []) ++ [x])

/-! ## String constants of the source -/

def sPIN : Str := "PIN".data
def sMACRO : Str := "MACRO".data
def sDIRECTION : Str := "DIRECTION".data
def sINPUT : Str := "INPUT".data
def sOUTPUT : Str := "OUTPUT".data
def sENDsp : Str := "END ".data
def sENDNETS : Str := "END NETS".data
def sENDCOMPONENTS : Str := "END COMPONENTS".data
def sROUTED : Str := "ROUTED".data
def sPROPERTY : Str := "PROPERTY".data
def sSOURCE : Str := "SOURCE".data
def sPLUSUSE : Str := "+ USE".data
def sPLUSWEIGHT : Str := "+ WEIGHT".data
def sNONDEFAULTRULE : Str := "NONDEFAULTRULE".data
def sCOMPONENTSsp : Str := "COMPONENTS ".data
def sNETSsp : Str := "NETS ".data

/-- The token test of source line 140-141 that ends the connectivity part of a
net description. -/
def endTokenB (line : Str) : Bool :=
  containsSub sROUTED line || line.contains ';' || containsSub sPROPERTY line ||
  containsSub sSOURCE line || containsSub sPLUSUSE line ||
  containsSub sPLUSWEIGHT line || containsSub sNONDEFAULTRULE line

/-! ## `parse_lef` (source lines 25-62)

The Python loop keeps `macroName` and `pinName` in local variables that are
only ever assigned, never cleared.  Reading one before its first assignment is
a `NameError`, modelled by `Except.error`.  A `line.split()[1]` on a line with
fewer than two words is an `IndexError`, modelled the same way.
-/

structure LefState where
  macroBlock : Bool
  macroName : Option Str
  pinName : Option Str
  macros : NetTable

def lefInit : LefState := ⟨false, none, none, []⟩

def word1 (line : Str) : Option Str := (splitWsL line).get? 1

def lefStep (st : LefState) (line0 : Str) : Except Unit LefState :=
  let line := stripWs line0
  if containsSub sMACRO line then
    match word1 line with
    | none => .error ()
    | some w =>
      .ok { st with macroName := some w, macros := updA st.macros w [], macroBlock := true }
  else if st.macroBlock then
    if containsSub sPIN line then
      match word1 line with
      | none => .error ()
      | some w => .ok { st with pinName := some w }
    else if containsSub sDIRECTION line then
      match word1 line with
      | none => .error ()
      | some d =>
        match st.macroName, st.pinName with
        | some m, some p => .ok { st with macros := upd2 st.macros m p d }
        | _, _ => .error ()
    else
      match st.macroName with
      | some m => if line = sENDsp ++ m then .ok { st with macroBlock := false } else .ok st
      | none => .ok st
  else .ok st

/-- `parse_lef`: fold the step over the lines, returning the macro table. -/
def parse_lef (lines : List Str) : Except Unit NetTable :=
  (lines.foldlM lefStep lefInit).map LefState.macros

/-! ## `parseDEF` (source lines 65-170) -/

structure PdState where
  expectedComponents : Int
  expectedNets : Int
  inNetDetails : Bool
  curNet : Option Str
  instances : Assoc
  netInstances : NetTable
  instanceNets : NetTable
  nets : List Str
  done : Bool

def pdInit : PdState := ⟨-1, -1, false, none, [], [], [], [], false⟩

/-- Processing of one pin pair on a connectivity line (source lines 152-161).
`instanceNets[instance][pin] = netName` raises `KeyError` in Python when the
instance is neither declared in COMPONENTS nor the lazily created `PIN`
sentinel; the embedding creates the entry instead, and the theorems that rely
on `instanceNets` assume every endpoint instance is declared. -/
def pdPin (st : PdState) (ip : Str × Str) : PdState :=
  let nm := st.curNet.getD []
  let st := { st with netInstances := appendA st.netInstances nm ip }
  let st :=
    if ip.1 = sPIN && !(keyMem st.instanceNets ip.1) then
      { st with instanceNets := updA st.instanceNets ip.1 [] }
    else st
  { st with instanceNets := upd2 st.instanceNets ip.1 ip.2 nm }

def pdStep (st : PdState) (line : Str) : PdState :=
  if st.done then st
  else if st.expectedComponents = -1 then
    match searchCompCount line with
    | some n => { st with expectedComponents := Int.ofNat n }
    | none => st
  else if st.expectedNets = -1 then
    let st :=
      match searchCompRec line with
      | some ic =>
        { st with instances := updA st.instances ic.1 ic.2,
                  instanceNets := updA st.instanceNets ic.1 [] }
      | none => st
    match anchoredNetsCount line with
    | some n => { st with expectedNets := Int.ofNat n }
    | none => st
  else
    if containsSub sENDNETS line then { st with done := true }
    else if !st.inNetDetails then
      match searchNetName line with
      | some nm =>
        { st with curNet := some nm, nets := st.nets ++ [nm],
                  netInstances := updA st.netInstances nm [], inNetDetails := true }
      | none => st
    else
      if endTokenB line then { st with inNetDetails := false }
      else (pinsOfLine line).foldl pdPin st

def parseDEF (lines : List Str) : PdState := lines.foldl pdStep pdInit

/-! ## `traceBufferPath` (source lines 234-274)

The Python function recurses with no visited set and no depth bound, so on a
cyclic buffer graph it does not terminate (Python dies with `RecursionError`).
The embedding adds a fuel argument: `none` means the recursion of the source
has not completed within `fuel` nested calls.  A return of `some l` for any
fuel is exactly the list the source returns.
-/

/-- The body of one call of `traceBufferPath`, with the recursive calls
abstracted as `recur`.  For every endpoint whose instance is a buffer with an
INPUT pin on the net, every OUTPUT pin of that buffer contributes its net
(looked up in `instanceNets`) followed by the recursive trace of that net. -/
def traceStep (netInstances : NetTable) (buffCondition : Str)
    (instances : Assoc) (macros : NetTable) (instanceNets : NetTable)
    (recur : Str → Option (List Str)) (startingNet : Str) : Option (List Str) :=
  ((lookupA netInstances startingNet).getD []).foldlM (fun fullPath ip =>
    if startsWithL buffCondition ip.1 then
      let bufferStdCell := (lookupA instances ip.1).getD []
      let macroPins := (lookupA macros bufferStdCell).getD []
      let pinDirection := (lookupA macroPins ip.2).getD []
      if pinDirection = sINPUT then
        ((lookupA instanceNets ip.1).getD []).foldlM (fun fp qp =>
          if (lookupA macroPins qp.1).getD [] = sOUTPUT then
            let outputNet := (lookupA ((lookupA instanceNets ip.1).getD []) qp.1).getD []
            match recur outputNet with
            | none => none
            | some rest => some (fp ++ [outputNet] ++ rest)
          else some fp) fullPath
      else some fullPath
    else some fullPath) []

def traceBufferPath (netInstances : NetTable) (buffCondition : Str)
    (instances : Assoc) (macros : NetTable) (instanceNets : NetTable) :
    Nat → Str → Option (List Str)
  | 0 => fun _ => none
  | Nat.succ f =>
    traceStep netInstances buffCondition instances macros instanceNets
      (traceBufferPath netInstances buffCondition instances macros instanceNets f)

/-! ## `identifyBufferedNets` (source lines 173-231)

The first pass builds a Python `set` of buffered nets; the iteration order of
that set is implementation defined, so the embedding takes it as an explicit
`order` parameter (any enumeration of the buffered nets).  The second pass
marks chain heads, and the third runs the tracer on each head in order.
-/

/-- The elements of the `bufferedNets` set, in net-table key order. -/
def bufferedList (netInstances : NetTable) (buffCondition : Str) : List Str :=
  (netInstances.map Prod.fst).filter (fun nm =>
    ((lookupA netInstances nm).getD []).any (fun ip => startsWithL buffCondition ip.1))

/-- The chain-head test of source lines 214-226: some endpoint has a non-`PIN`,
non-buffer instance whose pin direction resolves to OUTPUT. -/
def isChainHeadB (netInstances : NetTable) (instances : Assoc) (macros : NetTable)
    (buffCondition : Str) (nm : Str) : Bool :=
  ((lookupA netInstances nm).getD []).any (fun ip =>
    if ip.1 = sPIN then false
    else
      let macroPins := (lookupA macros ((lookupA instances ip.1).getD [])).getD []
      let pinDir := (lookupA macroPins ip.2).getD []
      !(startsWithL buffCondition ip.1) && pinDir = sOUTPUT)

/-- Sequential traversal failing on the first `none` (the Python loop at
source lines 228-229 assigns the absorbed list of each head in turn, and a
diverging trace call never returns). -/
def mapOptionAll {α β : Type} (f : α → Option β) : List α → Option (List β)
  | [] => some []
  | x :: xs =>
    match f x with
    | none => none
    | some y =>
      match mapOptionAll f xs with
      | none => none
      | some ys => some (y :: ys)

def identifyBufferedNets (fuel : Nat) (netInstances : NetTable) (buffCondition : Str)
    (instances : Assoc) (macros : NetTable) (instanceNets : NetTable)
    (order : List Str) : Option AbsorbTable :=
  mapOptionAll
    (fun h => (traceBufferPath netInstances buffCondition instances macros
        instanceNets fuel h).map (fun l => (h, l)))
    (order.filter (isChainHeadB netInstances instances macros buffCondition))

/-! ## `deleteBuffers` (source lines 278-437) -/

/-- The endpoint list of the synthesized record for a chain head (source lines
403-410): non-buffer endpoints of the head, then the non-buffer endpoints of
each absorbed net, in order, with no deduplication. -/
def synthNewNetInstances (netInstances : NetTable) (buffCondition : Str)
    (netName : Str) (absorbed : List Str) : List (Str × Str) :=
  let l0 := ((lookupA netInstances netName).getD []).foldl (fun acc ip =>
    if !(startsWithL buffCondition ip.1) then acc ++ [ip] else acc) []
  absorbed.foldl (fun acc bn =>
    ((lookupA netInstances bn).getD []).foldl (fun acc2 ip =>
      if !(startsWithL buffCondition ip.1) then acc2 ++ [ip] else acc2) acc) l0

def renderPinLine (ip : Str × Str) : Str :=
  "  ( ".data ++ ip.1 ++ " ".data ++ ip.2 ++ " )\n".data

/-- The `newNetStr` of source lines 411-414. -/
def synthRecordStr (netInstances : NetTable) (buffCondition : Str)
    (netName : Str) (absorbed : List Str) : Str :=
  "- ".data ++ netName ++ "\n".data ++
  ((synthNewNetInstances netInstances buffCondition netName absorbed).map renderPinLine).flatten
  ++ ";\n".data

structure RwState where
  inComponents : Bool
  inNets : Bool
  deletingComponent : Bool
  deletingNet : Bool
  newDEFStr : Str
  deletedBuffers : Nat
  deletedNets : Nat
  componentsCount : Int
  netsCount : Int

/-- One iteration of the rewriter loop (source lines 334-436).  The returned
flag is the `continue` of lines 371 and 430; a line is appended to the output
iff it was not skipped and neither deleting flag is set afterwards. -/
def rwStep (buffCondition : Str) (netInstances : NetTable)
    (bufferedNets : AbsorbTable) (netsToDelete : List Str)
    (s : RwState) (line : Str) : RwState :=
  let step :=
    if !s.inComponents && !s.inNets then
      match searchCompCount line with
      | some n => ({ s with inComponents := true, componentsCount := Int.ofNat n }, false)
      | none =>
        match anchoredNetsCount line with
        | some n => ({ s with inNets := true, netsCount := Int.ofNat n }, false)
        | none => (s, false)
    else if s.inComponents then
      let s :=
        if stripWs line = sENDCOMPONENTS then
          { s with inComponents := false,
                   newDEFStr := replaceAll (sCOMPONENTSsp ++ intToStr s.componentsCount)
                     (sCOMPONENTSsp ++ intToStr (s.componentsCount - Int.ofNat s.deletedBuffers))
                     s.newDEFStr }
        else s
      let s :=
        match searchCompRec line with
        | some ic =>
          if startsWithL buffCondition ic.1 then
            { s with deletingComponent := true, deletedBuffers := s.deletedBuffers + 1 }
          else s
        | none => s
      if s.deletingComponent && line.contains ';' then
        ({ s with deletingComponent := false }, true)
      else (s, false)
    else
      let s :=
        if stripWs line = sENDNETS then
          { s with inNets := false,
                   newDEFStr := replaceAll (sNETSsp ++ intToStr s.netsCount)
                     (sNETSsp ++ intToStr (s.netsCount - Int.ofNat s.deletedNets))
                     s.newDEFStr }
        else s
      let s :=
        match searchNetName line with
        | some netName =>
          if memStr netsToDelete netName then { s with deletingNet := true }
          else if keyMem bufferedNets netName then
            let absorbed := (lookupA bufferedNets netName).getD []
            { s with newDEFStr := s.newDEFStr ++
                       synthRecordStr netInstances buffCondition netName absorbed,
                     deletedNets := s.deletedNets + absorbed.length,
                     deletingNet := true }
          else s
        | none => s
      if s.deletingNet && line.contains ';' then
        ({ s with deletingNet := false }, true)
      else (s, false)
  let s := step.1
  if !step.2 && !s.deletingComponent && !s.deletingNet then
    { s with newDEFStr := s.newDEFStr ++ line }
  else s

def tildeLine : Str :=
  "# ~~~~~~~~~~~~~~~~~~~~~~~~~~~~~~~~~~~~~~~~~~~~~~~~~~~~~~~~~~~~~~~~~~~~~~~~~~~~~~".data

/-- The header of source lines 316-320.  Note that the five pieces are
concatenated with NO newline characters between them, exactly as the
`newDEFStr +=` statements of the source do. -/
def preambleStr (buffCondition ts prog path : Str) : Str :=
  tildeLine ++
  ("# DEF file devoid of buffer instances starting with ".data ++ [squote] ++
    buffCondition ++ [squote]) ++
  ("# This file was generated on ".data ++ ts ++ " with ".data ++ prog) ++
  ("# The original DEF file was located in ".data ++ path) ++
  tildeLine

def rwInit (buffCondition ts prog path : Str) : RwState :=
  ⟨false, false, false, false, preambleStr buffCondition ts prog path, 0, 0, 0, 0⟩

/-- `deleteBuffers`: the timestamp `ts`, program name `prog` and DEF path
`path` of the banner are parameters (in the source they come from
`datetime.now()`, `__file__` and the CLI). -/
def deleteBuffers (defLines : List Str) (buffCondition ts prog path : Str)
    (netInstances : NetTable) (bufferedNets : AbsorbTable) : Str :=
  let netsToDelete := (bufferedNets.map Prod.snd).flatten
  (defLines.foldl (rwStep buffCondition netInstances bufferedNets netsToDelete)
    (rwInit buffCondition ts prog path)).newDEFStr

/-- The whole pipeline on raw LEF and DEF lines, with the buffered-net
iteration order chosen as key order of the net table (one of the admissible
orders) and the tracer given `fuel`; `none` when `parse_lef` dies or the
tracer does not terminate within `fuel`. -/
def runPipeline (fuel : Nat) (lefLines defLines : List Str)
    (buffCondition ts prog path : Str) : Option Str :=
  match parse_lef lefLines with
  | .error _ => none
  | .ok macros =>
    let pd := parseDEF defLines
    let order := bufferedList pd.netInstances buffCondition
    match identifyBufferedNets fuel pd.netInstances buffCondition pd.instances macros
        pd.instanceNets order with
    | none => none
    | some bufferedNets =>
      some (deleteBuffers defLines buffCondition ts prog path pd.netInstances bufferedNets)

/-! ## Structured DEF files

The theorems about the rewriter and the parser are proved for DEF texts built
from the structured description below: arbitrary preamble/intermediate/trailer
lines, one-line component records, and net records made of a name line, one
line per pin pair, optional routing/property lines, and a closing `;` line.
`WfDef` collects the side conditions under which the line scanners of the
source behave as intended on the rendered lines (all of them are decidable and
hold for ordinary DEF identifiers, which contain no whitespace and none of the
keywords).
-/

structure NetRec where
  name : Str
  pins : List (Str × Str)
  tail : List Str

structure DefFile where
  pre : List Str
  compCountStr : Str
  comps : List (Str × Str)
  mid : List Str
  netCountStr : Str
  nets : List NetRec
  post : List Str

def renderComp (ic : Str × Str) : Str :=
  "- ".data ++ ic.1 ++ " ".data ++ ic.2 ++ " + PLACED ( 0 0 ) N ;\n".data

def netHeadLine (nm : Str) : Str := "- ".data ++ nm ++ "\n".data

def semiLine : Str := ";\n".data

def netLines (n : NetRec) : List Str :=
  netHeadLine n.name :: (n.pins.map renderPinLine ++ n.tail ++ [semiLine])

def compHeaderLine (cnt : Str) : Str := sCOMPONENTSsp ++ cnt ++ " ;\n".data

def netsHeaderLine (cnt : Str) : Str := sNETSsp ++ cnt ++ " ;\n".data

def endCompLine : Str := "END COMPONENTS\n".data

def endNetsLine : Str := "END NETS\n".data

def renderDef (D : DefFile) : List Str :=
  D.pre ++ [compHeaderLine D.compCountStr] ++ D.comps.map renderComp ++ [endCompLine]
  ++ D.mid ++ [netsHeaderLine D.netCountStr] ++ (D.nets.map netLines).flatten
  ++ [endNetsLine] ++ D.post

/-- Lines copied verbatim outside the two sections. -/
def plainLine (l : Str) : Prop :=
  searchCompCount l = none ∧ anchoredNetsCount l = none ∧ l.getLast? = some '\n'

/-- Conditions on a rendered component record. -/
def wfCompRec (ic : Str × Str) : Prop :=
  searchCompRec (renderComp ic) = some ic ∧
  stripWs (renderComp ic) ≠ sENDCOMPONENTS ∧
  ';' ∈ renderComp ic ∧
  anchoredNetsCount (renderComp ic) = none

/-- Conditions on a line inside a net record (pin, routing or property line).
They guarantee that the rewriter neither mistakes it for a net start nor ends
a deletion early on it, and that the parser does not leave the nets section. -/
def wfNetLine (l : Str) : Prop :=
  containsSub sENDNETS l = false ∧
  searchNetName l = none ∧
  ';' ∉ l ∧
  stripWs l ≠ sENDNETS

def wfNetRec (n : NetRec) : Prop :=
  stripWs (netHeadLine n.name) ≠ sENDNETS ∧
  searchNetName (netHeadLine n.name) = some n.name ∧
  ';' ∉ netHeadLine n.name ∧
  containsSub sENDNETS (netHeadLine n.name) = false ∧
  (∀ ip ∈ n.pins, wfNetLine (renderPinLine ip) ∧
    endTokenB (renderPinLine ip) = false ∧ pinsOfLine (renderPinLine ip) = [ip]) ∧
  (∀ l ∈ n.tail, wfNetLine l) ∧
  (match n.tail with | [] => True | t :: _ => endTokenB t = true)

/-- Number of component records whose instance has the buffer beginning. -/
def delB (D : DefFile) (buffCondition : Str) : Nat :=
  (D.comps.filter (fun ic => startsWithL buffCondition ic.1)).length

def keptComps (D : DefFile) (buffCondition : Str) : List (Str × Str) :=
  D.comps.filter (fun ic => !(startsWithL buffCondition ic.1))

/-- The back-patched COMPONENTS count pattern and replacement. -/
def patC (D : DefFile) : Str := sCOMPONENTSsp ++ D.compCountStr

def repC (D : DefFile) (buffCondition : Str) : Str :=
  sCOMPONENTSsp ++
  intToStr (Int.ofNat (digitsVal D.compCountStr) - Int.ofNat (delB D buffCondition))

/-- Whether the rewriter synthesizes a replacement record for this net. -/
def isSynthB (bufferedNets : AbsorbTable) (netsToDelete : List Str) (n : NetRec) : Bool :=
  !(memStr netsToDelete n.name) && keyMem bufferedNets n.name

/-- Total number of deleted nets counted by the rewriter. -/
def delN (D : DefFile) (bufferedNets : AbsorbTable) (netsToDelete : List Str) : Nat :=
  ((D.nets.filter (isSynthB bufferedNets netsToDelete)).map
    (fun n => ((lookupA bufferedNets n.name).getD []).length)).sum

def patN (D : DefFile) : Str := sNETSsp ++ D.netCountStr

def repN (D : DefFile) (bufferedNets : AbsorbTable) (netsToDelete : List Str) : Str :=
  sNETSsp ++
  intToStr (Int.ofNat (digitsVal D.netCountStr) -
    Int.ofNat (delN D bufferedNets netsToDelete))

/-- What the rewriter leaves in the output for one input net record. -/
def outChunk (netInstances : NetTable) (bufferedNets : AbsorbTable)
    (buffCondition : Str) (netsToDelete : List Str) (n : NetRec) : Str :=
  if memStr netsToDelete n.name then []
  else if keyMem bufferedNets n.name then
    synthRecordStr netInstances buffCondition n.name ((lookupA bufferedNets n.name).getD [])
  else (netLines n).flatten

/-- The first part of the output, up to and including the space-semicolon tail
of the components header. -/
def outPrefixC (D : DefFile) (buffCondition ts prog path : Str) : Str :=
  preambleStr buffCondition ts prog path ++ D.pre.flatten ++
  repC D buffCondition ++ " ;\n".data

/-- The output up to and including the nets header. -/
def outPrefixN (D : DefFile) (netInstances : NetTable) (bufferedNets : AbsorbTable)
    (buffCondition ts prog path : Str) (netsToDelete : List Str) : Str :=
  outPrefixC D buffCondition ts prog path ++
  ((keptComps D buffCondition).map renderComp).flatten ++ endCompLine ++
  D.mid.flatten ++ repN D bufferedNets netsToDelete ++ " ;\n".data

/-- The complete output of `deleteBuffers` on `renderDef D`, as established by
the characterization theorem below. -/
def specOutput (D : DefFile) (netInstances : NetTable) (bufferedNets : AbsorbTable)
    (buffCondition ts prog path : Str) : Str :=
  let netsToDelete := (bufferedNets.map Prod.snd).flatten
  outPrefixN D netInstances bufferedNets buffCondition ts prog path netsToDelete ++
  (D.nets.map (outChunk netInstances bufferedNets buffCondition netsToDelete)).flatten ++
  endNetsLine ++ D.post.flatten

/-- Well-formedness of a structured DEF together with the banner inputs and
the absorb table, sufficient for the rewriter characterization. -/
def WfDef (D : DefFile) (netInstances : NetTable) (bufferedNets : AbsorbTable)
    (buffCondition ts prog path : Str) : Prop :=
  let netsToDelete := (bufferedNets.map Prod.snd).flatten
  (∀ l ∈ D.pre, plainLine l) ∧
  (∀ l ∈ D.mid, plainLine l ∧ searchCompRec l = none) ∧
  (∀ l ∈ D.post, searchCompCount l = none ∧ anchoredNetsCount l = none) ∧
  (∀ ic ∈ D.comps, wfCompRec ic) ∧
  (∀ n ∈ D.nets, wfNetRec n) ∧
  D.compCountStr ≠ [] ∧ (∀ c ∈ D.compCountStr, isDigitC c = true) ∧
  natToStr (digitsVal D.compCountStr) = D.compCountStr ∧
  D.netCountStr ≠ [] ∧ (∀ c ∈ D.netCountStr, isDigitC c = true) ∧
  natToStr (digitsVal D.netCountStr) = D.netCountStr ∧
  searchCompCount (compHeaderLine D.compCountStr) = some (digitsVal D.compCountStr) ∧
  searchCompCount (netsHeaderLine D.netCountStr) = none ∧
  anchoredNetsCount (netsHeaderLine D.netCountStr) = some (digitsVal D.netCountStr) ∧
  searchCompRec (netsHeaderLine D.netCountStr) = none ∧
  containsSub (patC D) (preambleStr buffCondition ts prog path ++ D.pre.flatten) = false ∧
  containsSub (patC D) (" ;\n".data ++ ((keptComps D buffCondition).map renderComp).flatten)
    = false ∧
  containsSub (patN D)
    (outPrefixC D buffCondition ts prog path ++
      ((keptComps D buffCondition).map renderComp).flatten ++ endCompLine ++ D.mid.flatten)
    = false ∧
  containsSub (patN D)
    (" ;\n".data ++
      (D.nets.map (outChunk netInstances bufferedNets buffCondition netsToDelete)).flatten)
    = false

/-! ## Claim C1: conservation of non-buffer pins -/

/-- The non-buffer endpoints of a net, in their original order. -/
def nonBufferEndpoints (netInstances : NetTable) (buffCondition : Str) (nm : Str) :
    List (Str × Str) :=
  ((lookupA netInstances nm).getD []).filter (fun ip => !(startsWithL buffCondition ip.1))

theorem foldl_filterAcc {α : Type} (p : α → Bool) (l : List α) (init : List α) :
    l.foldl (fun acc x => if p x then acc ++ [x] else acc) init = init ++ l.filter p := by
  induction l generalizing init with
  | nil => simp
  | cons x xs ih => by_cases h : p x <;> simp [List.filter_cons, h, ih]

theorem coe_flatten_eq_sum {α : Type} (L : List (List α)) :
    Multiset.ofList L.flatten = (L.map (fun l => Multiset.ofList l)).sum := by
  induction L with
  | nil => rfl
  | cons l ls ih =>
    simp only [List.flatten_cons, List.map_cons, List.sum_cons, ← Multiset.coe_add, ih]

/-- The accumulated fold of source lines 404-410 over one net. -/
theorem synth_one_net (eps : List (Str × Str)) (buffCondition : Str) (acc : List (Str × Str)) :
    eps.foldl (fun acc2 ip =>
      if !(startsWithL buffCondition ip.1) then acc2 ++ [ip] else acc2) acc =
    acc ++ eps.filter (fun ip => !(startsWithL buffCondition ip.1)) :=
  foldl_filterAcc _ eps acc

theorem synth_eq_filter_flatten (netInstances : NetTable) (buffCondition : Str)
    (H : Str) (A : List Str) :
    synthNewNetInstances netInstances buffCondition H A =
      nonBufferEndpoints netInstances buffCondition H ++
        (A.map (nonBufferEndpoints netInstances buffCondition)).flatten := by
  unfold synthNewNetInstances
  rw [synth_one_net]
  have main : ∀ (A : List Str) (acc : List (Str × Str)),
      A.foldl (fun acc bn =>
        ((lookupA netInstances bn).getD []).foldl (fun acc2 ip =>
          if !(startsWithL buffCondition ip.1) then acc2 ++ [ip] else acc2) acc) acc =
      acc ++ (A.map (nonBufferEndpoints netInstances buffCondition)).flatten := by
    intro A
    induction A with
    | nil => intro acc; simp
    | cons a as ih =>
      intro acc
      simp only [List.foldl_cons, List.map_cons, List.flatten_cons]
      rw [synth_one_net, ih, List.append_assoc]
      rfl
  rw [main]
  simp [nonBufferEndpoints]

/-- C1.  For every chain head net `H` with absorbed list `A`, the endpoint list
of the record the rewriter synthesizes for `H` (source lines 403-414) is
exactly the non-buffer endpoints of `H` in their original order, followed by
the non-buffer endpoints of each net of `A` in tracer order, with no
deduplication; as a multiset it is the sum of the non-buffer endpoints over
`{H} ∪ A`.  (`rwStep` emits exactly `synthRecordStr`, which renders this list
one line per element.) -/
theorem C1_conservation (netInstances : NetTable) (buffCondition : Str)
    (H : Str) (A : List Str) :
    synthNewNetInstances netInstances buffCondition H A =
      nonBufferEndpoints netInstances buffCondition H ++
        (A.map (nonBufferEndpoints netInstances buffCondition)).flatten ∧
    Multiset.ofList (synthNewNetInstances netInstances buffCondition H A) =
      Multiset.ofList (nonBufferEndpoints netInstances buffCondition H) +
        (A.map (fun n =>
          Multiset.ofList (nonBufferEndpoints netInstances buffCondition n))).sum := by
  refine ⟨synth_eq_filter_flatten netInstances buffCondition H A, ?_⟩
  rw [synth_eq_filter_flatten netInstances buffCondition H A, ← Multiset.coe_add,
    coe_flatten_eq_sum, List.map_map]
  rfl

/-! ## Claim C3: the chain tracer on a cyclic buffer graph

`traceBufferPath` in the source recurses with no visited set, so the following
two-buffer cycle (`FE_1` drives `n2`, `FE_2` drives `n1`, each consuming the
net the other drives) makes the recursion call itself forever: the fueled
embedding returns `none` at every depth.
-/

def macros3 : NetTable := [("BUF".data, [("A".data, sINPUT), ("Y".data, sOUTPUT)])]
def instances3 : Assoc := [("FE_1".data, "BUF".data), ("FE_2".data, "BUF".data)]
def netInstances3 : NetTable :=
  [("n1".data, [("FE_1".data, "A".data)]), ("n2".data, [("FE_2".data, "A".data)])]
def instanceNets3 : NetTable :=
  [("FE_1".data, [("A".data, "n1".data), ("Y".data, "n2".data)]),
   ("FE_2".data, [("A".data, "n2".data), ("Y".data, "n1".data)])]
def buff3 : Str := "FE".data

theorem trace_cycle_both : ∀ fuel : Nat,
    traceBufferPath netInstances3 buff3 instances3 macros3 instanceNets3 fuel ("n1".data)
      = none ∧
    traceBufferPath netInstances3 buff3 instances3 macros3 instanceNets3 fuel ("n2".data)
      = none := by
  intro fuel
  induction fuel with
  | zero => exact ⟨rfl, rfl⟩
  | succ g ih =>
    obtain ⟨ih1, ih2⟩ := ih
    simp +decide [netInstances3, instanceNets3, instances3, macros3, buff3, sINPUT,
      sOUTPUT] at ih1 ih2
    constructor
    · show traceStep netInstances3 buff3 instances3 macros3 instanceNets3
        (traceBufferPath netInstances3 buff3 instances3 macros3 instanceNets3 g)
        ("n1".data) = none
      simp +decide [traceStep, List.foldlM, lookupA, ih2, netInstances3, instanceNets3,
        instances3, macros3, buff3, sINPUT, sOUTPUT, startsWithL]
    · show traceStep netInstances3 buff3 instances3 macros3 instanceNets3
        (traceBufferPath netInstances3 buff3 instances3 macros3 instanceNets3 g)
        ("n2".data) = none
      simp +decide [traceStep, List.foldlM, lookupA, ih1, netInstances3, instanceNets3,
        instances3, macros3, buff3, sINPUT, sOUTPUT, startsWithL]

/-- C3.  On the cyclic two-buffer netlist above, the chain tracer of the
source never finishes: for every recursion depth budget the fueled embedding
still reports an incomplete recursion (`none`).  The source neither guards
with a visited set nor logs a warning; in Python the call dies with
`RecursionError` instead of short-circuiting as the claim states. -/
theorem C3_cycle_divergence : ∀ fuel : Nat,
    traceBufferPath netInstances3 buff3 instances3 macros3 instanceNets3 fuel ("n1".data)
      = none :=
  fun fuel => (trace_cycle_both fuel).1

/-! ## Claim C8: DIRECTION before any PIN during LEF ingest -/

theorem lookupA_updA_self {α : Type} (l : List (Str × α)) (k : Str) (v : α) :
    lookupA (updA l k v) k = some v := by
  induction l with
  | nil => simp [updA, lookupA]
  | cons h t ih =>
    by_cases hk : h.1 = k
    · simp [updA, hk, lookupA]
    · simpa [updA, hk, lookupA] using ih

/-- A LEF file whose second macro has a DIRECTION line before any PIN line.
The claim says such a line is silently skipped and adds no entry; in fact the
source still has `pinName = "A"` from the first macro and files the direction
under it in the second macro. -/
def lefC8 : List Str :=
  ["MACRO M1\n".data, "PIN A\n".data, "DIRECTION INPUT ;\n".data, "END M1\n".data,
   "MACRO M2\n".data, "DIRECTION OUTPUT ;\n".data, "END M2\n".data]

/-- C8 counterexample: after parsing `lefC8`, macro `M2` has acquired the
entry `A ↦ OUTPUT` even though `M2` declares no pin at all, refuting the
claim that the DIRECTION line adds no entry to any macro table. -/
theorem C8_counterexample :
    ((parse_lef lefC8).toOption.map
      (fun m => lookupA ((lookupA m ("M2".data)).getD []) ("A".data))) =
    some (some ("OUTPUT".data)) := by decide

/-- C8 amended.  Inside a macro block, a DIRECTION line seen while `pinName`
still holds a pin name from an earlier macro is not skipped: the direction is
recorded in the current macro under that stale pin name, and parsing
continues without error. -/
theorem C8_amended (st : LefState) (line : Str) (m p d : Str)
    (hmb : st.macroBlock = true) (hm : st.macroName = some m) (hp : st.pinName = some p)
    (h1 : containsSub sMACRO (stripWs line) = false)
    (h2 : containsSub sPIN (stripWs line) = false)
    (h3 : containsSub sDIRECTION (stripWs line) = true)
    (h4 : word1 (stripWs line) = some d) :
    lefStep st line = .ok { st with macros := upd2 st.macros m p d } ∧
    lookupA ((lookupA (upd2 st.macros m p d) m).getD []) p = some d := by
  constructor
  · simp only [lefStep, h1, h2, h3, h4, Bool.false_eq_true, if_false, hmb, if_true, hm, hp]
  · simp only [upd2, lookupA_updA_self, Option.getD_some]

theorem C8_amended_witness :
    lefStep ⟨true, some ("M2".data), some ("A".data), [("M2".data, [])]⟩
        ("DIRECTION OUTPUT ;\n".data) =
      .ok { macroBlock := true, macroName := some ("M2".data), pinName := some ("A".data),
            macros := upd2 [("M2".data, [])] ("M2".data) ("A".data) ("OUTPUT".data) } ∧
    lookupA ((lookupA (upd2 [("M2".data, [])] ("M2".data) ("A".data) ("OUTPUT".data))
        ("M2".data)).getD []) ("A".data) = some ("OUTPUT".data) :=
  C8_amended ⟨true, some ("M2".data), some ("A".data), [("M2".data, [])]⟩
    ("DIRECTION OUTPUT ;\n".data) ("M2".data) ("A".data) ("OUTPUT".data)
    rfl rfl rfl (by decide) (by decide) (by decide) (by decide)

/-! ## Claim C9: the output preamble -/

def def9 : List Str :=
  ["VERSION 5.8 ;\n".data, "COMPONENTS 0 ;\n".data, "END COMPONENTS\n".data,
   "NETS 0 ;\n".data, "END NETS\n".data]
def ts9 : Str := "2026-10-12 00-00-00".data
def prog9 : Str := "delete_buffers.py".data
def path9 : Str := "design.def".data

/-- C9.  The output of the rewriter does begin with the banner, written once,
but the banner that the source builds (lines 316-320) contains no newline
character at all: the five comment pieces are concatenated into a single
unterminated line, not four newline-terminated lines as the claim states. -/
theorem C9_preamble_unterminated :
    startsWithL (preambleStr ("FE".data) ts9 prog9 path9)
      (deleteBuffers def9 ("FE".data) ts9 prog9 path9 [] []) = true ∧
    (preambleStr ("FE".data) ts9 prog9 path9).contains '\n' = false := by decide

/-! ## Properties of `replaceAll` (for the count back-patching) -/

theorem startsWithL_iff (p s : Str) : startsWithL p s = true ↔ p <+: s := by
  induction p generalizing s with
  | nil => simp [startsWithL]
  | cons a p ih =>
    cases s with
    | nil => simp [startsWithL, List.prefix_nil]
    | cons c cs =>
      simp only [startsWithL, Bool.and_eq_true, decide_eq_true_eq, ih,
        List.cons_prefix_cons]

theorem containsSub_iff_infix (pat s : Str) : containsSub pat s = true ↔ pat <:+: s := by
  induction s with
  | nil => simp [containsSub, startsWithL_iff]
  | cons c cs ih =>
    simp [containsSub, startsWithL_iff, ih, List.infix_cons_iff]

theorem replaceGo_no_match (pat rep s : Str)
    (h : containsSub pat s = false) : replaceGo pat rep 0 s = s := by
  induction s with
  | nil => rfl
  | cons c cs ih =>
    simp only [containsSub, Bool.or_eq_false_iff] at h
    simp only [replaceGo, h.1, Bool.false_eq_true, if_false, ih h.2]

theorem replaceGo_skip (pat rep : Str) (X R : Str) :
    replaceGo pat rep X.length (X ++ R) = replaceGo pat rep 0 R := by
  induction X with
  | nil => rfl
  | cons x xs ih => simpa [replaceGo] using ih

theorem replaceGo_append (pat rep A B : Str)
    (h : ∀ i, i < A.length → startsWithL pat ((A ++ B).drop i) = false) :
    replaceGo pat rep 0 (A ++ B) = A ++ replaceGo pat rep 0 B := by
  induction A with
  | nil => simp
  | cons c cs ih =>
    have h0 := h 0 (by simp)
    rw [List.drop_zero, List.cons_append] at h0
    have hrest : ∀ i, i < cs.length → startsWithL pat ((cs ++ B).drop i) = false := by
      intro i hi
      have h2 := h (i + 1) (by simp only [List.length_cons]; omega)
      rw [List.cons_append, List.drop_succ_cons] at h2
      exact h2
    rw [List.cons_append]
    show replaceGo pat rep 0 (c :: (cs ++ B)) = _
    simp only [replaceGo, h0, Bool.false_eq_true, if_false, ih hrest, List.cons_append]

theorem replaceGo_at_match (pat rep R : Str) (hne : pat ≠ [])
    (hR : containsSub pat R = false) :
    replaceGo pat rep 0 (pat ++ R) = rep ++ R := by
  match pat, hne with
  | p :: ps, _ =>
    have hsw : startsWithL (p :: ps) (p :: (ps ++ R)) = true := by
      rw [startsWithL_iff, ← List.cons_append]
      exact List.prefix_append _ _
    simp only [List.cons_append, replaceGo, List.append_eq, hsw, if_true, List.length_cons,
      Nat.add_sub_cancel]
    rw [replaceGo_skip, replaceGo_no_match _ _ _ hR]

theorem no_span_of_boundary (pat A B : Str) (hne : pat ≠ [])
    (hA : containsSub pat A = false) (a : Char) (A2 : Str) (hsplit : A = A2 ++ [a])
    (hmem : a ∉ pat) :
    ∀ i, i < A.length → startsWithL pat ((A ++ B).drop i) = false := by
  intro i hi
  by_contra hcon
  rw [Bool.not_eq_false, startsWithL_iff] at hcon
  rw [List.drop_append_eq_append_drop] at hcon
  have hdrop0 : i - A.length = 0 := by omega
  rw [hdrop0, List.drop_zero] at hcon
  by_cases hlen : pat.length ≤ (A.drop i).length
  · have hpre : pat <+: A.drop i := by
      rw [List.prefix_iff_eq_take] at hcon ⊢
      exact hcon.trans (List.take_append_of_le_length hlen)
    have hinf : pat <:+: A := hpre.isInfix.trans (List.drop_suffix i A).isInfix
    rw [← containsSub_iff_infix] at hinf
    rw [hinf] at hA
    exact absurd hA (by simp)
  · push_neg at hlen
    have hpre : A.drop i <+: pat :=
      List.prefix_of_prefix_length_le (List.prefix_append _ _) hcon (le_of_lt hlen)
    have hmem2 : a ∈ A.drop i := by
      rw [hsplit, List.drop_append_of_le_length (by
        rw [hsplit] at hi
        simp at hi
        omega)]
      simp
    exact hmem (hpre.subset hmem2)

/-- The back-patch: if the pattern occurs exactly at the marked position (no
occurrence inside `A`, whose final character is not even a character of the
pattern, and none inside `R`), the replacement rewrites exactly that one
occurrence. -/
theorem replaceAll_once (pat rep A R : Str) (hne : pat ≠ [])
    (hA : containsSub pat A = false) (a : Char) (A2 : Str) (hsplit : A = A2 ++ [a])
    (hmem : a ∉ pat) (hR : containsSub pat R = false) :
    replaceAll pat rep (A ++ (pat ++ R)) = A ++ (rep ++ R) := by
  match pat, hne with
  | p :: ps, _ =>
    show replaceGo (p :: ps) rep 0 (A ++ ((p :: ps) ++ R)) = A ++ (rep ++ R)
    rw [replaceGo_append (p :: ps) rep A ((p :: ps) ++ R)
      (no_span_of_boundary (p :: ps) A ((p :: ps) ++ R) (by simp) hA a A2 hsplit hmem)]
    rw [replaceGo_at_match (p :: ps) rep R (by simp) hR]

/-! ## Characterization of the rewriter on rendered structured DEF files -/

def rwRun (buffCondition : Str) (netInstances : NetTable) (bufferedNets : AbsorbTable)
    (netsToDelete : List Str) (s : RwState) (ls : List Str) : RwState :=
  ls.foldl (rwStep buffCondition netInstances bufferedNets netsToDelete) s

section RwLemmas

variable (bc : Str) (NI : NetTable) (BN : AbsorbTable) (NTD : List Str)

theorem rwRun_append (s : RwState) (l1 l2 : List Str) :
    rwRun bc NI BN NTD s (l1 ++ l2) = rwRun bc NI BN NTD (rwRun bc NI BN NTD s l1) l2 := by
  unfold rwRun
  exact List.foldl_append _ _ _ _

theorem rw_plain (l : Str) (hc : searchCompCount l = none)
    (hn : anchoredNetsCount l = none) (out : Str) (dB dN : Nat) (cc nc : Int) :
    rwStep bc NI BN NTD ⟨false, false, false, false, out, dB, dN, cc, nc⟩ l =
      ⟨false, false, false, false, out ++ l, dB, dN, cc, nc⟩ := by
  simp [rwStep, hc, hn]

theorem rwRun_plain (ls : List Str)
    (h : ∀ l ∈ ls, searchCompCount l = none ∧ anchoredNetsCount l = none)
    (out : Str) (dB dN : Nat) (cc nc : Int) :
    rwRun bc NI BN NTD ⟨false, false, false, false, out, dB, dN, cc, nc⟩ ls =
      ⟨false, false, false, false, out ++ ls.flatten, dB, dN, cc, nc⟩ := by
  induction ls generalizing out with
  | nil => simp [rwRun]
  | cons l ls ih =>
    have hl := h l (by simp)
    have hls : ∀ x ∈ ls, searchCompCount x = none ∧ anchoredNetsCount x = none :=
      fun x hx => h x (by simp [hx])
    show rwRun bc NI BN NTD
      (rwStep bc NI BN NTD ⟨false, false, false, false, out, dB, dN, cc, nc⟩ l) ls = _
    rw [rw_plain bc NI BN NTD l hl.1 hl.2, ih hls]
    simp

theorem rw_comp_header (l : Str) (n : Nat) (hc : searchCompCount l = some n)
    (out : Str) (dB dN : Nat) (cc nc : Int) :
    rwStep bc NI BN NTD ⟨false, false, false, false, out, dB, dN, cc, nc⟩ l =
      ⟨true, false, false, false, out ++ l, dB, dN, Int.ofNat n, nc⟩ := by
  simp [rwStep, hc]

theorem rw_nets_header (l : Str) (n : Nat) (hc : searchCompCount l = none)
    (hn : anchoredNetsCount l = some n)
    (out : Str) (dB dN : Nat) (cc nc : Int) :
    rwStep bc NI BN NTD ⟨false, false, false, false, out, dB, dN, cc, nc⟩ l =
      ⟨false, true, false, false, out ++ l, dB, dN, cc, Int.ofNat n⟩ := by
  simp [rwStep, hc, hn]

theorem rw_comp_kept (ic : Str × Str) (hwf : wfCompRec ic)
    (hbuff : startsWithL bc ic.1 = false)
    (out : Str) (dB dN : Nat) (cc nc : Int) :
    rwStep bc NI BN NTD ⟨true, false, false, false, out, dB, dN, cc, nc⟩ (renderComp ic) =
      ⟨true, false, false, false, out ++ renderComp ic, dB, dN, cc, nc⟩ := by
  obtain ⟨h1, h2, h3, h4⟩ := hwf
  simp [rwStep, h1, h2, hbuff]

theorem rw_comp_buffer (ic : Str × Str) (hwf : wfCompRec ic)
    (hbuff : startsWithL bc ic.1 = true)
    (out : Str) (dB dN : Nat) (cc nc : Int) :
    rwStep bc NI BN NTD ⟨true, false, false, false, out, dB, dN, cc, nc⟩ (renderComp ic) =
      ⟨true, false, false, false, out, dB + 1, dN, cc, nc⟩ := by
  obtain ⟨h1, h2, h3, h4⟩ := hwf
  simp [rwStep, h1, h2, h3, hbuff]

end RwLemmas

section RwLemmas2

variable (bc : Str) (NI : NetTable) (BN : AbsorbTable) (NTD : List Str)

theorem rwRun_comps (comps : List (Str × Str)) (h : ∀ ic ∈ comps, wfCompRec ic)
    (out : Str) (dB dN : Nat) (cc nc : Int) :
    rwRun bc NI BN NTD ⟨true, false, false, false, out, dB, dN, cc, nc⟩
        (comps.map renderComp) =
      ⟨true, false, false, false,
        out ++ ((comps.filter (fun ic => !(startsWithL bc ic.1))).map renderComp).flatten,
        dB + (comps.filter (fun ic => startsWithL bc ic.1)).length, dN, cc, nc⟩ := by
  induction comps generalizing out dB with
  | nil => simp [rwRun]
  | cons ic ics ih =>
    have hic := h ic (by simp)
    have hics : ∀ x ∈ ics, wfCompRec x := fun x hx => h x (by simp [hx])
    show rwRun bc NI BN NTD
      (rwStep bc NI BN NTD ⟨true, false, false, false, out, dB, dN, cc, nc⟩
        (renderComp ic)) (ics.map renderComp) = _
    by_cases hbuff : startsWithL bc ic.1 = true
    · rw [rw_comp_buffer bc NI BN NTD ic hic hbuff, ih hics]
      simp [List.filter_cons, hbuff, Nat.add_assoc, Nat.add_comm 1]
    · rw [rw_comp_kept bc NI BN NTD ic hic (by simpa using hbuff), ih hics]
      simp [List.filter_cons, hbuff]

theorem rw_end_components (out : Str) (dB dN : Nat) (cc nc : Int) :
    rwStep bc NI BN NTD ⟨true, false, false, false, out, dB, dN, cc, nc⟩ endCompLine =
      ⟨false, false, false, false,
        replaceAll (sCOMPONENTSsp ++ intToStr cc)
          (sCOMPONENTSsp ++ intToStr (cc - Int.ofNat dB)) out ++ endCompLine,
        dB, dN, cc, nc⟩ := by
  have h1 : stripWs endCompLine = sENDCOMPONENTS := by decide
  have h2 : searchCompRec endCompLine = none := by decide
  have h3 : ';' ∉ endCompLine := by decide
  simp [rwStep, h1, h2, h3]

theorem rw_end_nets (out : Str) (dB dN : Nat) (cc nc : Int) :
    rwStep bc NI BN NTD ⟨false, true, false, false, out, dB, dN, cc, nc⟩ endNetsLine =
      ⟨false, false, false, false,
        replaceAll (sNETSsp ++ intToStr nc)
          (sNETSsp ++ intToStr (nc - Int.ofNat dN)) out ++ endNetsLine,
        dB, dN, cc, nc⟩ := by
  have h1 : stripWs endNetsLine = sENDNETS := by decide
  have h2 : searchNetName endNetsLine = none := by decide
  have h3 : ';' ∉ endNetsLine := by decide
  simp [rwStep, h1, h2, h3]

end RwLemmas2

section RwLemmas3

variable (bc : Str) (NI : NetTable) (BN : AbsorbTable) (NTD : List Str)

theorem rw_netPlain (l : Str) (hwf : wfNetLine l) (out : Str) (dB dN : Nat) (cc nc : Int) :
    rwStep bc NI BN NTD ⟨false, true, false, false, out, dB, dN, cc, nc⟩ l =
      ⟨false, true, false, false, out ++ l, dB, dN, cc, nc⟩ := by
  obtain ⟨h1, h2, h3, h4⟩ := hwf
  simp [rwStep, h2, h3, h4]

theorem rw_netPlain_deleting (l : Str) (hwf : wfNetLine l)
    (out : Str) (dB dN : Nat) (cc nc : Int) :
    rwStep bc NI BN NTD ⟨false, true, false, true, out, dB, dN, cc, nc⟩ l =
      ⟨false, true, false, true, out, dB, dN, cc, nc⟩ := by
  obtain ⟨h1, h2, h3, h4⟩ := hwf
  simp [rwStep, h2, h3, h4]

theorem rwRun_netPlain (ls : List Str) (h : ∀ l ∈ ls, wfNetLine l)
    (out : Str) (dB dN : Nat) (cc nc : Int) :
    rwRun bc NI BN NTD ⟨false, true, false, false, out, dB, dN, cc, nc⟩ ls =
      ⟨false, true, false, false, out ++ ls.flatten, dB, dN, cc, nc⟩ := by
  induction ls generalizing out with
  | nil => simp [rwRun]
  | cons l ls ih =>
    show rwRun bc NI BN NTD
      (rwStep bc NI BN NTD ⟨false, true, false, false, out, dB, dN, cc, nc⟩ l) ls = _
    rw [rw_netPlain bc NI BN NTD l (h l (by simp)), ih (fun x hx => h x (by simp [hx]))]
    simp

theorem rwRun_netPlain_deleting (ls : List Str) (h : ∀ l ∈ ls, wfNetLine l)
    (out : Str) (dB dN : Nat) (cc nc : Int) :
    rwRun bc NI BN NTD ⟨false, true, false, true, out, dB, dN, cc, nc⟩ ls =
      ⟨false, true, false, true, out, dB, dN, cc, nc⟩ := by
  induction ls with
  | nil => simp [rwRun]
  | cons l ls ih =>
    show rwRun bc NI BN NTD
      (rwStep bc NI BN NTD ⟨false, true, false, true, out, dB, dN, cc, nc⟩ l) ls = _
    rw [rw_netPlain_deleting bc NI BN NTD l (h l (by simp)),
      ih (fun x hx => h x (by simp [hx]))]

theorem rw_semiLine (out : Str) (dB dN : Nat) (cc nc : Int) :
    rwStep bc NI BN NTD ⟨false, true, false, false, out, dB, dN, cc, nc⟩ semiLine =
      ⟨false, true, false, false, out ++ semiLine, dB, dN, cc, nc⟩ := by
  have h1 : stripWs semiLine ≠ sENDNETS := by decide
  have h2 : searchNetName semiLine = none := by decide
  simp [rwStep, h1, h2]

theorem rw_semiLine_deleting (out : Str) (dB dN : Nat) (cc nc : Int) :
    rwStep bc NI BN NTD ⟨false, true, false, true, out, dB, dN, cc, nc⟩ semiLine =
      ⟨false, true, false, false, out, dB, dN, cc, nc⟩ := by
  have h1 : stripWs semiLine ≠ sENDNETS := by decide
  have h2 : searchNetName semiLine = none := by decide
  have h3 : ';' ∈ semiLine := by decide
  simp [rwStep, h1, h2, h3]

theorem rw_net_header_kept (n : NetRec) (hwf : wfNetRec n)
    (hdel : memStr NTD n.name = false) (hkey : keyMem BN n.name = false)
    (out : Str) (dB dN : Nat) (cc nc : Int) :
    rwStep bc NI BN NTD ⟨false, true, false, false, out, dB, dN, cc, nc⟩
        (netHeadLine n.name) =
      ⟨false, true, false, false, out ++ netHeadLine n.name, dB, dN, cc, nc⟩ := by
  obtain ⟨h1, h2, h3, _⟩ := hwf
  simp [rwStep, h1, h2, h3, hdel, hkey]

theorem rw_net_header_deleted (n : NetRec) (hwf : wfNetRec n)
    (hdel : memStr NTD n.name = true)
    (out : Str) (dB dN : Nat) (cc nc : Int) :
    rwStep bc NI BN NTD ⟨false, true, false, false, out, dB, dN, cc, nc⟩
        (netHeadLine n.name) =
      ⟨false, true, false, true, out, dB, dN, cc, nc⟩ := by
  obtain ⟨h1, h2, h3, _⟩ := hwf
  simp [rwStep, h1, h2, h3, hdel]

theorem rw_net_header_synth (n : NetRec) (hwf : wfNetRec n)
    (hdel : memStr NTD n.name = false) (hkey : keyMem BN n.name = true)
    (out : Str) (dB dN : Nat) (cc nc : Int) :
    rwStep bc NI BN NTD ⟨false, true, false, false, out, dB, dN, cc, nc⟩
        (netHeadLine n.name) =
      ⟨false, true, false, true,
        out ++ synthRecordStr NI bc n.name ((lookupA BN n.name).getD []),
        dB, dN + ((lookupA BN n.name).getD []).length, cc, nc⟩ := by
  obtain ⟨h1, h2, h3, _⟩ := hwf
  simp [rwStep, h1, h2, h3, hdel, hkey]

/-- Processing one whole rendered net record from the in-nets idle state. -/
theorem rwRun_netRec (n : NetRec) (hwf : wfNetRec n)
    (out : Str) (dB dN : Nat) (cc nc : Int) :
    rwRun bc NI BN NTD ⟨false, true, false, false, out, dB, dN, cc, nc⟩ (netLines n) =
      ⟨false, true, false, false, out ++ outChunk NI BN bc NTD n, dB,
        dN + (if isSynthB BN NTD n then ((lookupA BN n.name).getD []).length else 0),
        cc, nc⟩ := by
  have hpins : ∀ l ∈ n.pins.map renderPinLine ++ n.tail, wfNetLine l := by
    intro l hl
    rcases List.mem_append.1 hl with hl | hl
    · obtain ⟨ip, hip, rfl⟩ := List.mem_map.1 hl
      exact (hwf.2.2.2.2.1 ip hip).1
    · exact hwf.2.2.2.2.2.1 l hl
  show rwRun bc NI BN NTD
    (rwStep bc NI BN NTD ⟨false, true, false, false, out, dB, dN, cc, nc⟩
      (netHeadLine n.name)) (n.pins.map renderPinLine ++ n.tail ++ [semiLine]) = _
  by_cases hdel : memStr NTD n.name = true
  · rw [rw_net_header_deleted bc NI BN NTD n hwf hdel]
    rw [show n.pins.map renderPinLine ++ n.tail ++ [semiLine] =
      (n.pins.map renderPinLine ++ n.tail) ++ [semiLine] by simp]
    rw [rwRun_append, rwRun_netPlain_deleting bc NI BN NTD _ hpins]
    show rwRun bc NI BN NTD _ [semiLine] = _
    simp only [rwRun, List.foldl_cons, List.foldl_nil]
    rw [rw_semiLine_deleting]
    simp [outChunk, isSynthB, hdel]
  · rw [Bool.not_eq_true] at hdel
    by_cases hkey : keyMem BN n.name = true
    · rw [rw_net_header_synth bc NI BN NTD n hwf hdel hkey]
      rw [show n.pins.map renderPinLine ++ n.tail ++ [semiLine] =
        (n.pins.map renderPinLine ++ n.tail) ++ [semiLine] by simp]
      rw [rwRun_append, rwRun_netPlain_deleting bc NI BN NTD _ hpins]
      show rwRun bc NI BN NTD _ [semiLine] = _
      simp only [rwRun, List.foldl_cons, List.foldl_nil]
      rw [rw_semiLine_deleting]
      simp [outChunk, isSynthB, hdel, hkey]
    · rw [Bool.not_eq_true] at hkey
      rw [rw_net_header_kept bc NI BN NTD n hwf hdel hkey]
      rw [show n.pins.map renderPinLine ++ n.tail ++ [semiLine] =
        (n.pins.map renderPinLine ++ n.tail) ++ [semiLine] by simp]
      rw [rwRun_append, rwRun_netPlain bc NI BN NTD _ hpins]
      show rwRun bc NI BN NTD _ [semiLine] = _
      simp only [rwRun, List.foldl_cons, List.foldl_nil]
      rw [rw_semiLine]
      simp [outChunk, isSynthB, hdel, hkey, netLines]

/-- Processing the whole nets section body. -/
theorem rwRun_nets (nets : List NetRec) (h : ∀ n ∈ nets, wfNetRec n)
    (out : Str) (dB dN : Nat) (cc nc : Int) :
    rwRun bc NI BN NTD ⟨false, true, false, false, out, dB, dN, cc, nc⟩
        ((nets.map netLines).flatten) =
      ⟨false, true, false, false,
        out ++ (nets.map (outChunk NI BN bc NTD)).flatten, dB,
        dN + ((nets.filter (isSynthB BN NTD)).map
          (fun n => ((lookupA BN n.name).getD []).length)).sum, cc, nc⟩ := by
  induction nets generalizing out dN with
  | nil => simp [rwRun]
  | cons n ns ih =>
    simp only [List.map_cons, List.flatten_cons]
    rw [rwRun_append, rwRun_netRec bc NI BN NTD n (h n (by simp)),
      ih (fun x hx => h x (by simp [hx]))]
    by_cases hs : isSynthB BN NTD n = true
    · simp [hs, List.filter_cons, Nat.add_assoc, Nat.add_comm]
    · rw [Bool.not_eq_true] at hs
      simp [hs, List.filter_cons]

end RwLemmas3

theorem intToStr_ofNat (n : Nat) : intToStr (Int.ofNat n) = natToStr n := by
  simp [intToStr]

theorem rwRun_cons (bc : Str) (NI : NetTable) (BN : AbsorbTable) (NTD : List Str)
    (s : RwState) (l : Str) (ls : List Str) :
    rwRun bc NI BN NTD s (l :: ls) = rwRun bc NI BN NTD (rwStep bc NI BN NTD s l) ls := rfl

theorem flatten_getLast (L : List Str) (h : ∀ l ∈ L, l.getLast? = some '\n') :
    L.flatten = [] ∨ L.flatten.getLast? = some '\n' := by
  induction L with
  | nil => exact Or.inl rfl
  | cons l ls ih =>
    have hl := h l (by simp)
    have ihs := ih (fun x hx => h x (by simp [hx]))
    rcases ihs with he | hlast
    · right
      simp [List.flatten_cons, he, hl]
    · right
      rw [List.flatten_cons, List.getLast?_append, hlast]
      rfl

theorem preamble_getLast (bc ts prog path : Str) :
    (preambleStr bc ts prog path).getLast? = some '~' := by
  unfold preambleStr
  rw [List.getLast?_append]
  rfl

/-- The last character of the output accumulated just before a header is a
newline or the final tilde of the banner, never a character of a count
pattern. -/
theorem not_mem_pat_of_digits (kw cnt : Str) (hds : ∀ c ∈ cnt, isDigitC c = true)
    (a : Char) (ha : isDigitC a = false) (ha2 : a ∉ kw) : a ∉ kw ++ cnt := by
  intro hmem
  rcases List.mem_append.1 hmem with h | h
  · exact ha2 h
  · rw [hds a h] at ha; cases ha

theorem append_getLast_split (A : Str) (hne : A ≠ []) (a : Char)
    (h : A.getLast? = some a) : A = A.dropLast ++ [a] := by
  rw [List.getLast?_eq_getLast A hne, Option.some_inj] at h
  rw [← h]
  exact (List.dropLast_append_getLast hne).symm

/-- Patterns used by the two back-patches never contain a newline or tilde. -/
theorem pat_no_nl (kw cnt : Str) (hds : ∀ c ∈ cnt, isDigitC c = true)
    (hkw1 : ('\n' ∈ kw) = False) (hkw2 : ('~' ∈ kw) = False) :
    '\n' ∉ kw ++ cnt ∧ '~' ∉ kw ++ cnt :=
  ⟨not_mem_pat_of_digits kw cnt hds '\n' (by decide) (by simp [hkw1]),
   not_mem_pat_of_digits kw cnt hds '~' (by decide) (by simp [hkw2])⟩

/-- Main characterization: on a well-formed rendered DEF, the rewriter
produces exactly `specOutput`. -/
theorem deleteBuffers_spec (D : DefFile) (NI : NetTable) (BN : AbsorbTable)
    (bc ts prog path : Str) (hwf : WfDef D NI BN bc ts prog path) :
    deleteBuffers (renderDef D) bc ts prog path NI BN =
      specOutput D NI BN bc ts prog path := by
  unfold WfDef at hwf
  obtain ⟨hpre, hmid, hpost, hcomps, hnets, hcne, hcdig, hccanon, hnne, hndig, hncanon,
    hch, hnh1, hnh2, hnh3, hf1, hf2, hf3, hf4⟩ := hwf
  show (rwRun bc NI BN ((BN.map Prod.snd).flatten) (rwInit bc ts prog path)
      (renderDef D)).newDEFStr = _
  set NTD := (BN.map Prod.snd).flatten with hNTD
  unfold renderDef rwInit
  simp only [List.append_assoc, List.singleton_append]
  rw [rwRun_append]
  rw [rwRun_plain bc NI BN NTD D.pre (fun l hl => ⟨(hpre l hl).1, (hpre l hl).2.1⟩)]
  rw [rwRun_append]
  rw [rwRun_cons bc NI BN NTD _ (compHeaderLine D.compCountStr)]
  rw [rw_comp_header bc NI BN NTD _ _ hch]
  rw [rwRun_comps bc NI BN NTD D.comps hcomps]
  rw [rwRun_append]
  rw [rwRun_cons bc NI BN NTD _ endCompLine]
  rw [rw_end_components]
  rw [rwRun_plain bc NI BN NTD D.mid (fun l hl => ⟨(hmid l hl).1.1, (hmid l hl).1.2.1⟩)]
  rw [rwRun_append]
  rw [rwRun_cons bc NI BN NTD _ (netsHeaderLine D.netCountStr)]
  rw [rw_nets_header bc NI BN NTD _ _ hnh1 hnh2]
  rw [rwRun_nets bc NI BN NTD D.nets hnets]
  rw [rwRun_cons bc NI BN NTD _ endNetsLine]
  rw [rw_end_nets]
  rw [rwRun_plain bc NI BN NTD D.post (fun l hl => ⟨(hpost l hl).1, (hpost l hl).2⟩)]
  simp only [Nat.zero_add, intToStr_ofNat, hccanon, hncanon]
  set A1 := preambleStr bc ts prog path ++ D.pre.flatten with hA1
  have hA1ne : A1 ≠ [] := by
    intro h
    rw [hA1, List.append_eq_nil] at h
    have := preamble_getLast bc ts prog path
    rw [h.1] at this
    cases this
  have hA1last : A1.getLast? = some '~' ∨ A1.getLast? = some '\n' := by
    rcases flatten_getLast D.pre (fun l hl => (hpre l hl).2.2) with he | hl
    · left
      rw [hA1, he, List.append_nil, preamble_getLast]
    · right
      rw [hA1, List.getLast?_append, hl]
      rfl
  obtain ⟨a1, ha1l, ha1d, ha1k⟩ :
      ∃ a, A1.getLast? = some a ∧ isDigitC a = false ∧ a ∉ sCOMPONENTSsp := by
    rcases hA1last with h | h
    · exact ⟨'~', h, by decide, by decide⟩
    · exact ⟨'\n', h, by decide, by decide⟩
  have hmem1 : a1 ∉ sCOMPONENTSsp ++ D.compCountStr :=
    not_mem_pat_of_digits _ _ hcdig a1 ha1d ha1k
  have hf2a : containsSub (sCOMPONENTSsp ++ D.compCountStr)
      (" ;\n".data ++ (List.map renderComp
        (List.filter (fun ic => !startsWithL bc ic.1) D.comps)).flatten) = false := by
    simpa [patC, keptComps] using hf2
  have hf1a : containsSub (sCOMPONENTSsp ++ D.compCountStr) A1 = false := by
    simpa [patC, hA1] using hf1
  have e1 : replaceAll (sCOMPONENTSsp ++ D.compCountStr)
      (sCOMPONENTSsp ++ intToStr (Int.ofNat (digitsVal D.compCountStr) -
        Int.ofNat (List.filter (fun ic => startsWithL bc ic.1) D.comps).length))
      (preambleStr bc ts prog path ++ D.pre.flatten ++ compHeaderLine D.compCountStr ++
        (List.map renderComp (List.filter (fun ic => !startsWithL bc ic.1) D.comps)).flatten) =
      A1 ++ ((sCOMPONENTSsp ++ intToStr (Int.ofNat (digitsVal D.compCountStr) -
        Int.ofNat (List.filter (fun ic => startsWithL bc ic.1) D.comps).length)) ++
        (" ;\n".data ++ (List.map renderComp
          (List.filter (fun ic => !startsWithL bc ic.1) D.comps)).flatten)) := by
    rw [show preambleStr bc ts prog path ++ D.pre.flatten ++ compHeaderLine D.compCountStr ++
        (List.map renderComp (List.filter (fun ic => !startsWithL bc ic.1) D.comps)).flatten =
        A1 ++ ((sCOMPONENTSsp ++ D.compCountStr) ++
          (" ;\n".data ++ (List.map renderComp
            (List.filter (fun ic => !startsWithL bc ic.1) D.comps)).flatten)) by
      simp [hA1, compHeaderLine, List.append_assoc]]
    exact replaceAll_once _ _ _ _ (by simp [sCOMPONENTSsp]) hf1a a1 A1.dropLast
      (append_getLast_split A1 hA1ne a1 ha1l) hmem1 hf2a
  rw [e1]
  have hecl : endCompLine.getLast? = some '\n' := by decide
  have hA2last : (A1 ++ (sCOMPONENTSsp ++ intToStr (Int.ofNat (digitsVal D.compCountStr) -
        Int.ofNat (List.filter (fun ic => startsWithL bc ic.1) D.comps).length) ++
        (" ;\n".data ++ (List.map renderComp
          (List.filter (fun ic => !startsWithL bc ic.1) D.comps)).flatten)) ++ endCompLine ++ D.mid.flatten).getLast? = some '\n' := by
    rcases flatten_getLast D.mid (fun l hl => (hmid l hl).1.2.2) with he | hl
    · rw [he, List.append_nil, List.getLast?_append, hecl]
      rfl
    · rw [List.getLast?_append, hl]
      rfl
  have hA2ne : (A1 ++ (sCOMPONENTSsp ++ intToStr (Int.ofNat (digitsVal D.compCountStr) -
        Int.ofNat (List.filter (fun ic => startsWithL bc ic.1) D.comps).length) ++
        (" ;\n".data ++ (List.map renderComp
          (List.filter (fun ic => !startsWithL bc ic.1) D.comps)).flatten)) ++ endCompLine ++ D.mid.flatten) ≠ [] := by
    intro h
    rw [h] at hA2last
    cases hA2last
  have hmem2 : '\n' ∉ sNETSsp ++ D.netCountStr :=
    not_mem_pat_of_digits _ _ hndig '\n' (by decide) (by decide)
  have hf3a : containsSub (sNETSsp ++ D.netCountStr) (A1 ++ (sCOMPONENTSsp ++ intToStr (Int.ofNat (digitsVal D.compCountStr) -
        Int.ofNat (List.filter (fun ic => startsWithL bc ic.1) D.comps).length) ++
        (" ;\n".data ++ (List.map renderComp
          (List.filter (fun ic => !startsWithL bc ic.1) D.comps)).flatten)) ++ endCompLine ++ D.mid.flatten) = false := by
    simpa [patN, outPrefixC, repC, delB, keptComps, hA1, List.append_assoc] using hf3
  have hf4a : containsSub (sNETSsp ++ D.netCountStr)
      (" ;\n".data ++ (List.map (outChunk NI BN bc NTD) D.nets).flatten) = false := by
    simpa [patN] using hf4
  have e2 : replaceAll (sNETSsp ++ D.netCountStr) (sNETSsp ++ intToStr (Int.ofNat (digitsVal D.netCountStr) -
        Int.ofNat (List.map (fun n => ((lookupA BN n.name).getD []).length)
          (List.filter (isSynthB BN NTD) D.nets)).sum))
      (A1 ++ (sCOMPONENTSsp ++ intToStr (Int.ofNat (digitsVal D.compCountStr) -
        Int.ofNat (List.filter (fun ic => startsWithL bc ic.1) D.comps).length) ++
        (" ;\n".data ++ (List.map renderComp
          (List.filter (fun ic => !startsWithL bc ic.1) D.comps)).flatten)) ++ endCompLine ++ D.mid.flatten ++ netsHeaderLine D.netCountStr ++ (List.map (outChunk NI BN bc NTD) D.nets).flatten) =
      (A1 ++ (sCOMPONENTSsp ++ intToStr (Int.ofNat (digitsVal D.compCountStr) -
        Int.ofNat (List.filter (fun ic => startsWithL bc ic.1) D.comps).length) ++
        (" ;\n".data ++ (List.map renderComp
          (List.filter (fun ic => !startsWithL bc ic.1) D.comps)).flatten)) ++ endCompLine ++ D.mid.flatten) ++ ((sNETSsp ++ intToStr (Int.ofNat (digitsVal D.netCountStr) -
        Int.ofNat (List.map (fun n => ((lookupA BN n.name).getD []).length)
          (List.filter (isSynthB BN NTD) D.nets)).sum)) ++ (" ;\n".data ++ (List.map (outChunk NI BN bc NTD) D.nets).flatten)) := by
    rw [show A1 ++ (sCOMPONENTSsp ++ intToStr (Int.ofNat (digitsVal D.compCountStr) -
        Int.ofNat (List.filter (fun ic => startsWithL bc ic.1) D.comps).length) ++
        (" ;\n".data ++ (List.map renderComp
          (List.filter (fun ic => !startsWithL bc ic.1) D.comps)).flatten)) ++ endCompLine ++ D.mid.flatten ++ netsHeaderLine D.netCountStr ++ (List.map (outChunk NI BN bc NTD) D.nets).flatten =
        (A1 ++ (sCOMPONENTSsp ++ intToStr (Int.ofNat (digitsVal D.compCountStr) -
        Int.ofNat (List.filter (fun ic => startsWithL bc ic.1) D.comps).length) ++
        (" ;\n".data ++ (List.map renderComp
          (List.filter (fun ic => !startsWithL bc ic.1) D.comps)).flatten)) ++ endCompLine ++ D.mid.flatten) ++ ((sNETSsp ++ D.netCountStr) ++ (" ;\n".data ++ (List.map (outChunk NI BN bc NTD) D.nets).flatten)) by
      simp [netsHeaderLine, List.append_assoc]]
    exact replaceAll_once _ _ _ _ (by simp [sNETSsp]) hf3a '\n' _
      (append_getLast_split _ hA2ne '\n' hA2last) hmem2 hf4a
  rw [e2]
  simp [specOutput, outPrefixN, outPrefixC, repC, repN, delB, delN, keptComps, patN, patC,
    hA1, hNTD, List.append_assoc]

/-! ## Claim C6: non-chain nets are copied byte-identically -/

/-- C6.  Any net record that is neither in the absorb table (chain head) nor
in the nets-to-delete list appears in the rewriter output with all its lines
(connectivity, routing and property lines) byte-identical, in one contiguous
block, exactly as rendered in the input. -/
theorem C6_nonchain_verbatim (D : DefFile) (NI : NetTable) (BN : AbsorbTable)
    (bc ts prog path : Str) (hwf : WfDef D NI BN bc ts prog path)
    (n : NetRec) (hn : n ∈ D.nets)
    (hdel : memStr ((BN.map Prod.snd).flatten) n.name = false)
    (hkey : keyMem BN n.name = false) :
    (∃ X Y, deleteBuffers (renderDef D) bc ts prog path NI BN =
      X ++ (netLines n).flatten ++ Y) ∧
    (∃ X2 Y2, renderDef D = X2 ++ netLines n ++ Y2) := by
  constructor
  · rw [deleteBuffers_spec D NI BN bc ts prog path hwf]
    obtain ⟨s, t, hst⟩ := List.append_of_mem hn
    refine ⟨outPrefixN D NI BN bc ts prog path ((BN.map Prod.snd).flatten) ++
      (s.map (outChunk NI BN bc ((BN.map Prod.snd).flatten))).flatten,
      (t.map (outChunk NI BN bc ((BN.map Prod.snd).flatten))).flatten ++
        endNetsLine ++ D.post.flatten, ?_⟩
    unfold specOutput
    rw [hst]
    have hch : outChunk NI BN bc ((BN.map Prod.snd).flatten) n = (netLines n).flatten := by
      simp [outChunk, hdel, hkey]
    simp [hch, List.append_assoc]
  · obtain ⟨s, t, hst⟩ := List.append_of_mem hn
    refine ⟨D.pre ++ [compHeaderLine D.compCountStr] ++ D.comps.map renderComp ++
      [endCompLine] ++ D.mid ++ [netsHeaderLine D.netCountStr] ++
      (s.map netLines).flatten,
      (t.map netLines).flatten ++ [endNetsLine] ++ D.post, ?_⟩
    unfold renderDef
    rw [hst]
    simp [List.append_assoc]

/-! ## Claim C5: count consistency -/

theorem length_filter_not_add {α : Type} (p : α → Bool) (l : List α) :
    (l.filter (fun x => !(p x))).length + (l.filter p).length = l.length := by
  induction l with
  | nil => rfl
  | cons x xs ih =>
    by_cases h : p x <;> simp [List.filter_cons, h, ← ih] <;> omega

theorem lookupA_of_nodup_mem {α : Type} (l : List (Str × α)) (k : Str) (v : α)
    (hnd : (l.map Prod.fst).Nodup) (hmem : (k, v) ∈ l) : lookupA l k = some v := by
  induction l with
  | nil => cases hmem
  | cons h t ih =>
    rcases List.mem_cons.1 hmem with rfl | hmem2
    · simp [lookupA]
    · have hk : h.1 ≠ k := by
        intro he
        have : k ∈ t.map Prod.fst := List.mem_map.2 ⟨(k, v), hmem2, rfl⟩
        rw [List.map_cons, List.nodup_cons] at hnd
        exact hnd.1 (he ▸ this)
      simpa [lookupA, hk] using ih (by
        rw [List.map_cons, List.nodup_cons] at hnd
        exact hnd.2) hmem2

theorem sum_lookup_len (BN : AbsorbTable) (hnd : (BN.map Prod.fst).Nodup) :
    ((BN.map Prod.fst).map (fun k => ((lookupA BN k).getD []).length)).sum =
      ((BN.map Prod.snd).flatten).length := by
  rw [List.length_flatten, List.map_map, List.map_map]
  congr 1
  apply List.map_congr_left
  intro p hp
  have := lookupA_of_nodup_mem BN p.1 p.2 hnd hp
  simp [Function.comp, this]

theorem memStr_iff (xs : List Str) (x : Str) : memStr xs x = true ↔ x ∈ xs := by
  simp only [memStr, List.any_eq_true, decide_eq_true_eq]
  constructor
  · rintro ⟨y, hy, rfl⟩
    exact hy
  · intro h
    exact ⟨x, h, rfl⟩

theorem keyMem_iff {α : Type} (d : List (Str × α)) (k : Str) :
    keyMem d k = true ↔ k ∈ d.map Prod.fst := by
  simp only [keyMem, List.any_eq_true, decide_eq_true_eq]
  constructor
  · rintro ⟨y, hy, rfl⟩
    exact hy
  · intro h
    exact ⟨k, h, rfl⟩

theorem map_filter_comp {α β : Type} (f : α → β) (p : β → Bool) (l : List α) :
    (l.filter (fun x => p (f x))).map f = (l.map f).filter p := by
  induction l with
  | nil => rfl
  | cons x xs ih =>
    by_cases h : p (f x) <;> simp [List.filter_cons, h, ih]

theorem intToStr_sub (a b : Nat) (h : b ≤ a) :
    intToStr (Int.ofNat a - Int.ofNat b) = natToStr (a - b) := by
  rw [Int.ofNat_eq_natCast, Int.ofNat_eq_natCast, ← Nat.cast_sub h,
    ← Int.ofNat_eq_natCast, intToStr_ofNat]

/-- C5.  Under accurate declared counts and the structural invariants of the
chain decomposition (no duplicate net names, chain heads and absorbed nets are
distinct existing nets, absorbed lists do not overlap), the rewriter output is
`specOutput`, whose back-patched `COMPONENTS` count is exactly the number of
component records it contains, and whose back-patched `NETS` count is exactly
the number of net records it contains (the synthesized head records plus the
untouched ones). -/
theorem C5_count_consistency (D : DefFile) (NI : NetTable) (BN : AbsorbTable)
    (bc ts prog path : Str) (hwf : WfDef D NI BN bc ts prog path)
    (hcc : digitsVal D.compCountStr = D.comps.length)
    (hnc : digitsVal D.netCountStr = D.nets.length)
    (hnames : (D.nets.map NetRec.name).Nodup)
    (hkeysub : ∀ k, k ∈ BN.map Prod.fst → k ∈ D.nets.map NetRec.name)
    (hkeynd : (BN.map Prod.fst).Nodup)
    (hntdnd : ((BN.map Prod.snd).flatten).Nodup)
    (hntdsub : ∀ x, x ∈ (BN.map Prod.snd).flatten → x ∈ D.nets.map NetRec.name)
    (hdisj : ∀ k, k ∈ BN.map Prod.fst → memStr ((BN.map Prod.snd).flatten) k = false) :
    deleteBuffers (renderDef D) bc ts prog path NI BN =
      specOutput D NI BN bc ts prog path ∧
    repC D bc = sCOMPONENTSsp ++ natToStr ((keptComps D bc).length) ∧
    repN D BN ((BN.map Prod.snd).flatten) = sNETSsp ++ natToStr
      ((D.nets.filter
        (fun n => !(memStr ((BN.map Prod.snd).flatten) n.name))).length) := by
  refine ⟨deleteBuffers_spec D NI BN bc ts prog path hwf, ?_, ?_⟩
  · unfold repC delB keptComps
    rw [hcc]
    have hle := List.length_filter_le (fun ic => startsWithL bc ic.1) D.comps
    rw [intToStr_sub _ _ hle]
    have := length_filter_not_add (fun ic => startsWithL bc ic.1) D.comps
    congr 2
    omega
  · unfold repN delN
    rw [hnc]
    set ntd := (BN.map Prod.snd).flatten with hntd
    have hsynth : D.nets.filter (isSynthB BN ntd) =
        D.nets.filter (fun n => keyMem BN n.name) := by
      apply List.filter_congr
      intro n hn
      by_cases hk : keyMem BN n.name = true
      · have := hdisj n.name ((keyMem_iff BN n.name).1 hk)
        simp [isSynthB, hk, this]
      · rw [Bool.not_eq_true] at hk
        simp [isSynthB, hk]
    have hmapfilter : (D.nets.filter (fun n => keyMem BN n.name)).map NetRec.name =
        (D.nets.map NetRec.name).filter (fun k => keyMem BN k) :=
      map_filter_comp NetRec.name (fun k => keyMem BN k) D.nets
    have hperm : ((D.nets.map NetRec.name).filter (fun k => keyMem BN k)).Perm
        (BN.map Prod.fst) := by
      rw [List.perm_ext_iff_of_nodup (hnames.filter _) hkeynd]
      intro k
      simp only [List.mem_filter]
      constructor
      · rintro ⟨-, hk⟩
        exact (keyMem_iff BN k).1 hk
      · intro hk
        exact ⟨hkeysub k hk, (keyMem_iff BN k).2 hk⟩
    have hsum : ((D.nets.filter (isSynthB BN ntd)).map
        (fun n => ((lookupA BN n.name).getD []).length)).sum = ntd.length := by
      rw [hsynth]
      have : (D.nets.filter (fun n => keyMem BN n.name)).map
          (fun n => ((lookupA BN n.name).getD []).length) =
          ((D.nets.filter (fun n => keyMem BN n.name)).map NetRec.name).map
            (fun k => ((lookupA BN k).getD []).length) := by
        rw [List.map_map]
        rfl
      rw [this, hmapfilter, (hperm.map (fun k => ((lookupA BN k).getD []).length)).sum_eq,
        sum_lookup_len BN hkeynd]
    have hdelperm : ((D.nets.map NetRec.name).filter (fun k => memStr ntd k)).Perm ntd := by
      rw [List.perm_ext_iff_of_nodup (hnames.filter _) hntdnd]
      intro k
      simp only [List.mem_filter]
      constructor
      · rintro ⟨-, hk⟩
        exact (memStr_iff ntd k).1 hk
      · intro hk
        exact ⟨hntdsub k hk, (memStr_iff ntd k).2 hk⟩
    have hdelcount : (D.nets.filter (fun n => memStr ntd n.name)).length = ntd.length := by
      have h1 := congrArg List.length
        (map_filter_comp NetRec.name (fun k => memStr ntd k) D.nets)
      rw [List.length_map] at h1
      rw [h1, hdelperm.length_eq]
    rw [hsum]
    have hle2 : ntd.length ≤ D.nets.length := by
      rw [← hdelcount]
      exact List.length_filter_le _ _
    rw [intToStr_sub _ _ hle2]
    have := length_filter_not_add (fun n => memStr ntd n.name) D.nets
    congr 2
    omega

/-! ## Claim C2: buffer elimination -/

/-- LEF input for the counterexample: a buffer cell `BUF` and a sink `INV`. -/
def lefC2 : List Str :=
  ["MACRO BUF\n".data, "PIN A\n".data, "DIRECTION INPUT ;\n".data,
   "PIN Y\n".data, "DIRECTION OUTPUT ;\n".data, "END BUF\n".data,
   "MACRO INV\n".data, "PIN I\n".data, "DIRECTION INPUT ;\n".data, "END INV\n".data]

/-- DEF input for the counterexample: buffer `FE_1` is driven directly by a
top-level port (`PIN X`), so neither `n1` nor `n2` is a chain head and no net
is absorbed: both net records survive verbatim, buffer endpoint included. -/
def defC2 : List Str :=
  ["VERSION 5.8 ;\n".data,
   "COMPONENTS 2 ;\n".data,
   "- FE_1 BUF + PLACED ( 0 0 ) N ;\n".data,
   "- B1 INV + PLACED ( 0 0 ) N ;\n".data,
   "END COMPONENTS\n".data,
   "NETS 2 ;\n".data,
   "- n1\n".data, "  ( PIN X )\n".data, "  ( FE_1 A )\n".data, ";\n".data,
   "- n2\n".data, "  ( FE_1 Y )\n".data, "  ( B1 I )\n".data, ";\n".data,
   "END NETS\n".data,
   "END DESIGN\n".data]

/-- C2 counterexample: on `lefC2`/`defC2` with buffer beginning `FE`, the full
pipeline completes and its output still contains the connectivity line
`( FE_1 A )`, i.e. an instance whose name begins with the buffer beginning
appears in a net record of the output, refuting the claim. -/
theorem C2_counterexample :
    (runPipeline 4 lefC2 defC2 ("FE".data) ts9 prog9 path9).isSome = true ∧
    containsSub ("( FE_1 A )".data)
      ((runPipeline 4 lefC2 defC2 ("FE".data) ts9 prog9 path9).getD []) = true := by
  constructor
  · decide
  · decide

/-- The endpoint list the rewriter leaves for a net record in the output. -/
def outPins (BN : AbsorbTable) (netsToDelete : List Str) (NI : NetTable)
    (bc : Str) (n : NetRec) : List (Str × Str) :=
  if memStr netsToDelete n.name then []
  else if keyMem BN n.name then
    synthNewNetInstances NI bc n.name ((lookupA BN n.name).getD [])
  else n.pins

/-- C2 amended.  No buffer-named instance survives in any component record,
and provided every net touched by a buffer is either a chain head (a key of
the absorb table) or on the nets-to-delete list, no buffer-named instance
survives in the endpoint list of any output net record either.  Without that
coverage condition the claim fails (see the counterexample): a buffered net
that is neither a head nor absorbed is copied verbatim. -/
theorem C2_amended (D : DefFile) (NI : NetTable) (BN : AbsorbTable)
    (bc ts prog path : Str) (hwf : WfDef D NI BN bc ts prog path)
    (hcover : ∀ n ∈ D.nets, (∃ ip ∈ n.pins, startsWithL bc ip.1 = true) →
      memStr ((BN.map Prod.snd).flatten) n.name = true ∨ keyMem BN n.name = true) :
    deleteBuffers (renderDef D) bc ts prog path NI BN =
      specOutput D NI BN bc ts prog path ∧
    (∀ ic ∈ keptComps D bc, startsWithL bc ic.1 = false) ∧
    (∀ n ∈ D.nets, ∀ ip ∈ outPins BN ((BN.map Prod.snd).flatten) NI bc n,
      startsWithL bc ip.1 = false) := by
  refine ⟨deleteBuffers_spec D NI BN bc ts prog path hwf, ?_, ?_⟩
  · intro ic hic
    have := List.of_mem_filter hic
    simpa using this
  · intro n hn ip hip
    unfold outPins at hip
    by_cases hdel : memStr ((BN.map Prod.snd).flatten) n.name = true
    · rw [hdel] at hip
      simp at hip
    · rw [Bool.not_eq_true] at hdel
      rw [hdel] at hip
      by_cases hkey : keyMem BN n.name = true
      · rw [hkey] at hip
        simp only [if_true, if_false, Bool.false_eq_true] at hip
        rw [synth_eq_filter_flatten] at hip
        rcases List.mem_append.1 hip with h | h
        · have := List.of_mem_filter h
          simpa using this
        · obtain ⟨l, hl, hmem⟩ := List.mem_flatten.1 h
          obtain ⟨m, _, rfl⟩ := List.mem_map.1 hl
          have := List.of_mem_filter hmem
          simpa using this
      · rw [Bool.not_eq_true] at hkey
        rw [hkey] at hip
        simp only [Bool.false_eq_true, if_false] at hip
        by_contra hbuf
        rw [Bool.not_eq_false] at hbuf
        rcases hcover n hn ⟨ip, hip, hbuf⟩ with h | h
        · rw [h] at hdel
          cases hdel
        · rw [h] at hkey
          cases hkey

/-! ## Claim C7: determinism despite the unordered buffered-net set -/

/-- The pipeline with the buffered-net iteration order as an explicit
parameter (two runs of the Python program may hash the set differently). -/
def runPipelineWith (fuel : Nat) (lefLines defLines : List Str)
    (buffCondition ts prog path : Str) (order : List Str) : Option Str :=
  ((parse_lef lefLines).toOption).bind (fun macros =>
    (identifyBufferedNets fuel (parseDEF defLines).netInstances buffCondition
        (parseDEF defLines).instances macros (parseDEF defLines).instanceNets order).map
      (fun bufferedNets =>
        deleteBuffers defLines buffCondition ts prog path
          (parseDEF defLines).netInstances bufferedNets))

theorem bool_eq_of_iff {a b : Bool} (h : a = true ↔ b = true) : a = b := by
  cases a <;> cases b <;> simp_all

theorem lookupA_eq_of_perm {α : Type} (l₁ l₂ : List (Str × α)) (hp : l₁.Perm l₂)
    (hnd : (l₁.map Prod.fst).Nodup) : ∀ k, lookupA l₁ k = lookupA l₂ k := by
  induction hp with
  | nil => intro k; rfl
  | cons x p ih =>
    intro k
    rw [List.map_cons, List.nodup_cons] at hnd
    show (if x.1 = k then some x.2 else lookupA _ k) = (if x.1 = k then some x.2 else lookupA _ k)
    by_cases hx : x.1 = k <;> simp [hx, ih hnd.2 k]
  | swap x y l =>
    intro k
    rw [List.map_cons, List.map_cons, List.nodup_cons] at hnd
    have hxy : y.1 ≠ x.1 := by
      intro he
      exact hnd.1 (he ▸ List.mem_cons_self _ _)
    show (if y.1 = k then some y.2 else if x.1 = k then some x.2 else lookupA l k) =
      (if x.1 = k then some x.2 else if y.1 = k then some y.2 else lookupA l k)
    by_cases hx : x.1 = k
    · by_cases hy : y.1 = k
      · exact absurd (hy.trans hx.symm) hxy
      · simp [hx, hy]
    · by_cases hy : y.1 = k <;> simp [hx, hy]
  | trans p₁ p₂ ih₁ ih₂ =>
    intro k
    rw [ih₁ hnd k]
    exact ih₂ (((p₁.map Prod.fst).nodup_iff).1 hnd) k

theorem rwStep_congr (bc : Str) (NI : NetTable) (BN₁ BN₂ : AbsorbTable)
    (ntd₁ ntd₂ : List Str)
    (hlk : ∀ k, lookupA BN₁ k = lookupA BN₂ k)
    (hkm : ∀ k, keyMem BN₁ k = keyMem BN₂ k)
    (hms : ∀ x, memStr ntd₁ x = memStr ntd₂ x) (s : RwState) (l : Str) :
    rwStep bc NI BN₁ ntd₁ s l = rwStep bc NI BN₂ ntd₂ s l := by
  simp only [rwStep, hlk, hkm, hms]

theorem deleteBuffers_congr (defLines : List Str) (bc ts prog path : Str)
    (NI : NetTable) (BN₁ BN₂ : AbsorbTable) (hp : BN₁.Perm BN₂)
    (hnd : (BN₁.map Prod.fst).Nodup) :
    deleteBuffers defLines bc ts prog path NI BN₁ =
      deleteBuffers defLines bc ts prog path NI BN₂ := by
  unfold deleteBuffers
  have hlk := lookupA_eq_of_perm BN₁ BN₂ hp hnd
  have hkm : ∀ k, keyMem BN₁ k = keyMem BN₂ k := fun k => bool_eq_of_iff (by
    rw [keyMem_iff, keyMem_iff]
    exact (hp.map Prod.fst).mem_iff)
  have hms : ∀ x, memStr ((BN₁.map Prod.snd).flatten) x =
      memStr ((BN₂.map Prod.snd).flatten) x := fun x => bool_eq_of_iff (by
    rw [memStr_iff, memStr_iff, List.mem_flatten, List.mem_flatten]
    constructor
    · rintro ⟨l, hl, hx⟩
      exact ⟨l, (hp.map Prod.snd).mem_iff.1 hl, hx⟩
    · rintro ⟨l, hl, hx⟩
      exact ⟨l, (hp.map Prod.snd).mem_iff.2 hl, hx⟩)
  have hfold : ∀ (ls : List Str) (s : RwState),
      ls.foldl (rwStep bc NI BN₁ ((BN₁.map Prod.snd).flatten)) s =
      ls.foldl (rwStep bc NI BN₂ ((BN₂.map Prod.snd).flatten)) s := by
    intro ls
    induction ls with
    | nil => intro s; rfl
    | cons l t ih =>
      intro s
      rw [List.foldl_cons, List.foldl_cons,
        rwStep_congr bc NI BN₁ BN₂ _ _ hlk hkm hms s l, ih]
  show (defLines.foldl (rwStep bc NI BN₁ ((BN₁.map Prod.snd).flatten))
      (rwInit bc ts prog path)).newDEFStr =
    (defLines.foldl (rwStep bc NI BN₂ ((BN₂.map Prod.snd).flatten))
      (rwInit bc ts prog path)).newDEFStr
  rw [hfold]

theorem mapOptionAll_isSome {α β : Type} (f : α → Option β) (l : List α) :
    (mapOptionAll f l).isSome = true ↔ ∀ x ∈ l, (f x).isSome = true := by
  induction l with
  | nil => simp [mapOptionAll]
  | cons x xs ih =>
    cases hfx : f x with
    | none => simp [mapOptionAll, hfx]
    | some y =>
      cases hmt : mapOptionAll f xs with
      | none =>
        rw [hmt] at ih
        simp only [Option.isSome_none, Bool.false_eq_true, false_iff] at ih
        push_neg at ih
        obtain ⟨z, hz, hnz⟩ := ih
        simp only [mapOptionAll, hfx, hmt]
        constructor
        · intro h
          simp at h
        · intro h
          exact absurd (h z (by simp [hz])) hnz
      | some ys =>
        rw [hmt] at ih
        simp only [Option.isSome_some, true_iff] at ih
        simp only [mapOptionAll, hfx, hmt]
        constructor
        · intro _ z hz
          rcases List.mem_cons.1 hz with rfl | hz2
          · simp [hfx]
          · exact ih z hz2
        · intro _
          simp

theorem mapOptionAll_perm {α β : Type} (f : α → Option β) :
    ∀ {l₁ l₂ : List α}, l₁.Perm l₂ → ∀ {r₁ r₂ : List β},
      mapOptionAll f l₁ = some r₁ → mapOptionAll f l₂ = some r₂ → r₁.Perm r₂ := by
  intro l₁ l₂ hp
  induction hp with
  | nil =>
    intro r₁ r₂ h1 h2
    simp only [mapOptionAll, Option.some_inj] at h1 h2
    rw [← h1, ← h2]
  | cons x p ih =>
    intro r₁ r₂ h1 h2
    cases hfx : f x with
    | none =>
      simp only [mapOptionAll, hfx] at h1
      cases h1
    | some y =>
      simp only [mapOptionAll, hfx] at h1 h2
      cases hm1 : mapOptionAll f _ with
      | none =>
        rw [hm1] at h1
        cases h1
      | some ys1 =>
        rw [hm1] at h1
        cases hm2 : mapOptionAll f _ with
        | none =>
          rw [hm2] at h2
          cases h2
        | some ys2 =>
          rw [hm2] at h2
          simp only [Option.some_inj] at h1 h2
          rw [← h1, ← h2]
          exact (ih hm1 hm2).cons y
  | swap x y l =>
    intro r₁ r₂ h1 h2
    cases hfy : f y with
    | none =>
      simp only [mapOptionAll, hfy] at h1
      cases hfx : f x with
      | none =>
        simp only [mapOptionAll, hfx] at h2
        cases h2
      | some b =>
        simp only [mapOptionAll, hfx, hfy] at h2
        cases h2
    | some a =>
      cases hfx : f x with
      | none =>
        simp only [mapOptionAll, hfy, hfx] at h1
        cases h1
      | some b =>
        simp only [mapOptionAll, hfy, hfx] at h1 h2
        cases hml : mapOptionAll f l with
        | none =>
          rw [hml] at h1
          cases h1
        | some zs =>
          rw [hml] at h1 h2
          simp only [Option.some_inj] at h1 h2
          rw [← h1, ← h2]
          exact List.Perm.swap b a zs
  | trans p₁ p₂ ih₁ ih₂ =>
    rename_i la lb lc
    intro r₁ r₂ h1 h2
    have hs : (mapOptionAll f lb).isSome = true := by
      rw [mapOptionAll_isSome]
      intro x hx
      exact (mapOptionAll_isSome f la).1 (by rw [h1]; rfl) x (p₁.mem_iff.2 hx)
    obtain ⟨rm, hrm⟩ := Option.isSome_iff_exists.1 hs
    exact (ih₁ h1 hrm).trans (ih₂ hrm h2)

theorem mapOptionAll_pairs_fst (g : Str → Option (List Str)) :
    ∀ (l : List Str) (r : AbsorbTable),
      mapOptionAll (fun h => (g h).map (fun v => (h, v))) l = some r →
      r.map Prod.fst = l := by
  intro l
  induction l with
  | nil =>
    intro r h
    simp only [mapOptionAll, Option.some_inj] at h
    rw [← h]
    rfl
  | cons x xs ih =>
    intro r h
    cases hgx : g x with
    | none =>
      simp only [mapOptionAll, hgx, Option.map_none'] at h
      cases h
    | some v =>
      simp only [mapOptionAll, hgx, Option.map_some'] at h
      cases hm : mapOptionAll (fun h => (g h).map (fun v => (h, v))) xs with
      | none =>
        rw [hm] at h
        cases h
      | some ys =>
        rw [hm] at h
        simp only [Option.some_inj] at h
        rw [← h, List.map_cons, ih ys hm]

/-- C7.  Two runs of the whole pipeline on the same LEF and DEF inputs and the
same buffer beginning produce the same output text, for ANY two enumeration
orders of the buffered-net set (the Python set iteration order is arbitrary):
the classifier output differs only by a permutation of the absorb table, and
the rewriter consults that table only through key membership, key lookup and
membership in the concatenation of its values. -/
theorem C7_determinism (fuel : Nat) (lefLines defLines : List Str)
    (bc ts prog path : Str) (order₁ order₂ : List Str)
    (h1 : order₁.Nodup) (h2 : order₂.Nodup)
    (hmem : ∀ x, x ∈ order₁ ↔ x ∈ order₂) (out₁ out₂ : Str)
    (ho1 : runPipelineWith fuel lefLines defLines bc ts prog path order₁ = some out₁)
    (ho2 : runPipelineWith fuel lefLines defLines bc ts prog path order₂ = some out₂) :
    out₁ = out₂ := by
  unfold runPipelineWith at ho1 ho2
  rw [Option.bind_eq_some] at ho1 ho2
  obtain ⟨macros, hpl1, ho1⟩ := ho1
  obtain ⟨macros2, hpl2, ho2⟩ := ho2
  rw [hpl1] at hpl2
  rw [Option.some_inj] at hpl2
  rw [← hpl2] at ho2
  rw [Option.map_eq_some'] at ho1 ho2
  obtain ⟨BN₁, hid1, hdb1⟩ := ho1
  obtain ⟨BN₂, hid2, hdb2⟩ := ho2
  rw [← hdb1, ← hdb2]
  have hordp : order₁.Perm order₂ := (List.perm_ext_iff_of_nodup h1 h2).2 hmem
  have hheadp := hordp.filter (isChainHeadB (parseDEF defLines).netInstances
    (parseDEF defLines).instances macros bc)
  unfold identifyBufferedNets at hid1 hid2
  have hperm := mapOptionAll_perm _ hheadp hid1 hid2
  have hfst := mapOptionAll_pairs_fst _ _ BN₁ hid1
  have hnd : (BN₁.map Prod.fst).Nodup := by
    rw [hfst]
    exact h1.filter _
  exact deleteBuffers_congr defLines bc ts prog path _ BN₁ BN₂ hperm hnd


/-! ## Claim C10: last binding wins in the instance-pin index -/

def lookup2 (d : NetTable) (i p : Str) : Option Str :=
  lookupA ((lookupA d i).getD []) p

/-- The endpoint binding events of a structured DEF, in file order. -/
def defEvents (D : DefFile) : List ((Str × Str) × Str) :=
  (D.nets.map (fun n => n.pins.map (fun ip => (ip, n.name)))).flatten

/-- The net that the last binding of the pair in the event list names. -/
def lastBindingL (evs : List ((Str × Str) × Str)) (i p : Str) : Option Str :=
  ((evs.filter (fun e => decide (e.1 = (i, p)))).map Prod.snd).getLast?

def lastBinding (D : DefFile) (i p : Str) : Option Str := lastBindingL (defEvents D) i p

theorem lookupA_updA {α : Type} (l : List (Str × α)) (k k' : Str) (v : α) :
    lookupA (updA l k v) k' = if k' = k then some v else lookupA l k' := by
  induction l with
  | nil =>
    by_cases h : k' = k
    · simp [updA, lookupA, h]
    · simp [updA, lookupA, h, Ne.symm h]
  | cons x t ih =>
    by_cases hx : x.1 = k
    · rw [show updA (x :: t) k v = (x.1, v) :: t by simp [updA, hx]]
      by_cases h : k' = k
      · have hx' : x.1 = k' := by rw [hx, h]
        simp [lookupA, hx', h]
      · have hx' : x.1 ≠ k' := by
          rw [hx]
          exact fun he => h he.symm
        simp [lookupA, hx', h]
    · rw [show updA (x :: t) k v = x :: updA t k v by simp [updA, hx]]
      by_cases h2 : x.1 = k'
      · by_cases h : k' = k
        · exact absurd (h2.trans h) hx
        · simp [lookupA, h2, h]
      · simp [lookupA, h2, ih]

theorem lookup2_upd2 (d : NetTable) (k1 k2 : Str) (v : Str) (i p : Str) :
    lookup2 (upd2 d k1 k2 v) i p =
      if i = k1 ∧ p = k2 then some v else lookup2 d i p := by
  unfold lookup2 upd2
  rw [lookupA_updA]
  by_cases hi : i = k1
  · rw [if_pos hi, Option.getD_some, lookupA_updA, hi]
    by_cases hp : p = k2
    · rw [if_pos hp, if_pos ⟨rfl, hp⟩]
    · rw [if_neg hp, if_neg (fun hc => hp hc.2)]
  · rw [if_neg hi, if_neg (fun hc => hi hc.1)]

theorem lookup2_updA_nil (d : NetTable) (k : Str) (hk : keyMem d k = false)
    (i p : Str) : lookup2 (updA d k []) i p = lookup2 d i p := by
  unfold lookup2
  rw [lookupA_updA]
  by_cases hi : i = k
  · rw [if_pos hi]
    have : lookupA d i = none := by
      cases hl : lookupA d i with
      | none => rfl
      | some w =>
        exfalso
        have hmem : i ∈ d.map Prod.fst := by
          clear hk
          induction d with
          | nil => cases hl
          | cons x t ih =>
            by_cases hx : x.1 = i
            · simp [hx]
            · rw [show lookupA (x :: t) i = lookupA t i by simp [lookupA, hx]] at hl
              simp [ih hl]
        rw [← hi] at hk
        rw [(keyMem_iff d i).2 hmem] at hk
        cases hk
    rw [this]
    rfl
  · rw [if_neg hi]

/-- Effect of one pin event on the instance-pin-net index. -/
theorem pdPin_lookup2 (st : PdState) (nm : Str) (hc : st.curNet = some nm)
    (ip : Str × Str) (i p : Str) :
    lookup2 (pdPin st ip).instanceNets i p =
      if i = ip.1 ∧ p = ip.2 then some nm else lookup2 st.instanceNets i p := by
  unfold pdPin
  rw [hc]
  by_cases hpin : ip.1 = sPIN && !(keyMem st.instanceNets ip.1)
  · simp only [hpin, if_true]
    rw [lookup2_upd2]
    rw [Bool.and_eq_true, Bool.not_eq_eq_eq_not, Bool.not_true] at hpin
    rw [lookup2_updA_nil _ _ hpin.2]
    rfl
  · simp only [hpin, Bool.false_eq_true, if_false]
    rw [lookup2_upd2]
    rfl

/-! ## Claim C4: chain-head classification -/

theorem isChainHeadB_iff (NI : NetTable) (instances : Assoc) (macros : NetTable)
    (bc : Str) (nm : Str) :
    isChainHeadB NI instances macros bc nm = true ↔
      ∃ ip ∈ (lookupA NI nm).getD [], ¬(ip.1 = sPIN) ∧ startsWithL bc ip.1 = false ∧
        (lookupA ((lookupA macros ((lookupA instances ip.1).getD [])).getD []) ip.2).getD []
          = sOUTPUT := by
  simp only [isChainHeadB, List.any_eq_true]
  constructor
  · rintro ⟨ip, hip, h⟩
    by_cases hp : ip.1 = sPIN
    · rw [if_pos hp] at h
      cases h
    · rw [if_neg hp, Bool.and_eq_true, Bool.not_eq_true', decide_eq_true_eq] at h
      exact ⟨ip, hip, hp, h.1, h.2⟩
  · rintro ⟨ip, hip, hp, hb, hd⟩
    refine ⟨ip, hip, ?_⟩
    rw [if_neg hp, Bool.and_eq_true, Bool.not_eq_true', decide_eq_true_eq]
    exact ⟨hb, hd⟩

/-- C4.  A net is recorded as a chain head by the classifier (a key of the
absorb table it returns) exactly when it is in the enumeration of the
buffered-net set and some endpoint has a non-sentinel, non-buffer instance
whose pin resolves to direction OUTPUT through the instance and macro tables;
every other enumerated net is left interior (not a key). -/
theorem C4_chain_head_classification (fuel : Nat) (NI : NetTable) (instances : Assoc)
    (macros : NetTable) (instanceNets : NetTable) (bc : Str) (order : List Str)
    (BN : AbsorbTable)
    (hid : identifyBufferedNets fuel NI bc instances macros instanceNets order = some BN)
    (N : Str) :
    (N ∈ BN.map Prod.fst ↔ N ∈ order ∧ isChainHeadB NI instances macros bc N = true) ∧
    (isChainHeadB NI instances macros bc N = true ↔
      ∃ ip ∈ (lookupA NI N).getD [], ¬(ip.1 = sPIN) ∧ startsWithL bc ip.1 = false ∧
        (lookupA ((lookupA macros ((lookupA instances ip.1).getD [])).getD []) ip.2).getD []
          = sOUTPUT) := by
  constructor
  · have hfst := mapOptionAll_pairs_fst
      (traceBufferPath NI bc instances macros instanceNets fuel) _ BN hid
    rw [hfst, List.mem_filter]
  · exact isChainHeadB_iff NI instances macros bc N

/-! ### Step lemmas for `pdStep` -/

section PdLemmas

variable (st : PdState) (l : Str)

theorem pd_idle1 (hd : st.done = false) (hec : st.expectedComponents = -1)
    (hc : searchCompCount l = none) : pdStep st l = st := by
  simp [pdStep, hd, hec, hc]

theorem pd_header_comp (cN : Nat) (hd : st.done = false)
    (hec : st.expectedComponents = -1) (hc : searchCompCount l = some cN) :
    pdStep st l = { st with expectedComponents := Int.ofNat cN } := by
  simp [pdStep, hd, hec, hc]

theorem pd_comp_rec (ic : Str × Str) (hd : st.done = false)
    (hec : ¬(st.expectedComponents = -1)) (hen : st.expectedNets = -1)
    (hsc : searchCompRec l = some ic) (han : anchoredNetsCount l = none) :
    pdStep st l = { st with instances := updA st.instances ic.1 ic.2,
                            instanceNets := updA st.instanceNets ic.1 [] } := by
  simp [pdStep, hd, hec, hen, hsc, han]

theorem pd_idle2 (hd : st.done = false)
    (hec : ¬(st.expectedComponents = -1)) (hen : st.expectedNets = -1)
    (hsc : searchCompRec l = none) (han : anchoredNetsCount l = none) :
    pdStep st l = st := by
  simp [pdStep, hd, hec, hen, hsc, han]

theorem pd_nets_header (nN : Nat) (hd : st.done = false)
    (hec : ¬(st.expectedComponents = -1)) (hen : st.expectedNets = -1)
    (hsc : searchCompRec l = none) (han : anchoredNetsCount l = some nN) :
    pdStep st l = { st with expectedNets := Int.ofNat nN } := by
  simp [pdStep, hd, hec, hen, hsc, han]

theorem pd_endnets (hd : st.done = false)
    (hec : ¬(st.expectedComponents = -1)) (hen : ¬(st.expectedNets = -1))
    (hcs : containsSub sENDNETS l = true) :
    pdStep st l = { st with done := true } := by
  simp [pdStep, hd, hec, hen, hcs]

theorem pd_idle3 (hd : st.done = false)
    (hec : ¬(st.expectedComponents = -1)) (hen : ¬(st.expectedNets = -1))
    (hcs : containsSub sENDNETS l = false) (hind : st.inNetDetails = false)
    (hsn : searchNetName l = none) : pdStep st l = st := by
  simp [pdStep, hd, hec, hen, hcs, hind, hsn]

theorem pd_netHead (nm : Str) (hd : st.done = false)
    (hec : ¬(st.expectedComponents = -1)) (hen : ¬(st.expectedNets = -1))
    (hcs : containsSub sENDNETS l = false) (hind : st.inNetDetails = false)
    (hsn : searchNetName l = some nm) :
    pdStep st l = { st with curNet := some nm, nets := st.nets ++ [nm],
                            netInstances := updA st.netInstances nm [],
                            inNetDetails := true } := by
  simp [pdStep, hd, hec, hen, hcs, hind, hsn]

theorem pd_endTok (hd : st.done = false)
    (hec : ¬(st.expectedComponents = -1)) (hen : ¬(st.expectedNets = -1))
    (hcs : containsSub sENDNETS l = false) (hind : st.inNetDetails = true)
    (het : endTokenB l = true) :
    pdStep st l = { st with inNetDetails := false } := by
  simp [pdStep, hd, hec, hen, hcs, hind, het]

theorem pd_pinLine (hd : st.done = false)
    (hec : ¬(st.expectedComponents = -1)) (hen : ¬(st.expectedNets = -1))
    (hcs : containsSub sENDNETS l = false) (hind : st.inNetDetails = true)
    (het : endTokenB l = false) :
    pdStep st l = (pinsOfLine l).foldl pdPin st := by
  simp [pdStep, hd, hec, hen, hcs, hind, het]

theorem pd_done (hd : st.done = true) : pdStep st l = st := by
  simp [pdStep, hd]

theorem pdPin_fields (ip : Str × Str) :
    (pdPin st ip).expectedComponents = st.expectedComponents ∧
    (pdPin st ip).expectedNets = st.expectedNets ∧
    (pdPin st ip).inNetDetails = st.inNetDetails ∧
    (pdPin st ip).curNet = st.curNet ∧
    (pdPin st ip).instances = st.instances ∧
    (pdPin st ip).nets = st.nets ∧
    (pdPin st ip).done = st.done := by
  unfold pdPin
  by_cases h : (decide (ip.1 = sPIN) &&
      !keyMem { st with netInstances := appendA st.netInstances (st.curNet.getD []) ip
        }.instanceNets ip.1) = true
  · simp [h]
  · rw [Bool.not_eq_true] at h
    simp [h]

end PdLemmas

theorem optionOr_assoc {α : Type} (a b c : Option α) :
    (a.or b).or c = a.or (b.or c) := by
  cases a <;> rfl

theorem lastBindingL_append (e1 e2 : List ((Str × Str) × Str)) (i p : Str) :
    lastBindingL (e1 ++ e2) i p = (lastBindingL e2 i p).or (lastBindingL e1 i p) := by
  unfold lastBindingL
  rw [List.filter_append, List.map_append, List.getLast?_append]

theorem lastBindingL_rec (pins : List (Str × Str)) (nm : Str) (i p : Str) :
    lastBindingL (pins.map (fun ip => (ip, nm))) i p =
      if pins.any (fun ip => decide (ip = (i, p))) then some nm else none := by
  induction pins with
  | nil => rfl
  | cons ip rest ih =>
    rw [List.map_cons, ← List.singleton_append, lastBindingL_append, ih, List.any_cons]
    by_cases h : ip = (i, p)
    · have h1 : lastBindingL [(ip, nm)] i p = some nm := by
        simp [lastBindingL, h]
      rw [h1, h]
      by_cases h2 : rest.any (fun ip => decide (ip = (i, p))) = true
      · simp [h2]
      · rw [Bool.not_eq_true] at h2
        simp [h2]
    · have h1 : lastBindingL [(ip, nm)] i p = none := by
        simp [lastBindingL, h]
      rw [h1, Option.or_none]
      simp [h]

theorem pdPin_run (pins : List (Str × Str)) : ∀ (st : PdState) (nm : Str),
    st.curNet = some nm →
    ((pins.foldl pdPin st).expectedComponents = st.expectedComponents ∧
     (pins.foldl pdPin st).expectedNets = st.expectedNets ∧
     (pins.foldl pdPin st).inNetDetails = st.inNetDetails ∧
     (pins.foldl pdPin st).curNet = st.curNet ∧
     (pins.foldl pdPin st).done = st.done) ∧
    ∀ i p, lookup2 (pins.foldl pdPin st).instanceNets i p =
      if pins.any (fun ip => decide (ip = (i, p))) then some nm
      else lookup2 st.instanceNets i p := by
  induction pins with
  | nil =>
    intro st nm hc
    exact ⟨⟨rfl, rfl, rfl, rfl, rfl⟩, fun i p => by simp⟩
  | cons ip rest ih =>
    intro st nm hc
    rw [List.foldl_cons]
    have hf := pdPin_fields st ip
    have hc2 : (pdPin st ip).curNet = some nm := by rw [hf.2.2.2.1, hc]
    obtain ⟨⟨f1, f2, f3, f4, f5⟩, hlk⟩ := ih (pdPin st ip) nm hc2
    refine ⟨⟨f1.trans hf.1, f2.trans hf.2.1, f3.trans hf.2.2.1,
      f4.trans hf.2.2.2.1, f5.trans hf.2.2.2.2.2.2⟩, ?_⟩
    intro i p
    rw [hlk i p, pdPin_lookup2 st nm hc ip i p, List.any_cons]
    by_cases h1 : rest.any (fun ip => decide (ip = (i, p))) = true
    · simp [h1]
    · rw [Bool.not_eq_true] at h1
      rw [h1]
      by_cases h2 : ip = (i, p)
      · simp [h2]
      · have h3 : ¬(i = ip.1 ∧ p = ip.2) := by
          rintro ⟨ha, hb⟩
          exact h2 (by rw [ha, hb])
        simp [h2, h3]

theorem pd_pinLines (pins : List (Str × Str))
    (hpins : ∀ ip ∈ pins, wfNetLine (renderPinLine ip) ∧
      endTokenB (renderPinLine ip) = false ∧ pinsOfLine (renderPinLine ip) = [ip]) :
    ∀ st : PdState, st.done = false → ¬(st.expectedComponents = -1) →
      ¬(st.expectedNets = -1) → st.inNetDetails = true →
      (pins.map renderPinLine).foldl pdStep st = pins.foldl pdPin st := by
  induction pins with
  | nil => intro st _ _ _ _; rfl
  | cons ip rest ih =>
    intro st hd hec hen hind
    rw [List.map_cons, List.foldl_cons, List.foldl_cons]
    have h1 := hpins ip (by simp)
    rw [pd_pinLine st _ hd hec hen h1.1.1 hind h1.2.1, h1.2.2,
      List.foldl_cons, List.foldl_nil]
    have hf := pdPin_fields st ip
    exact ih (fun x hx => hpins x (by simp [hx])) (pdPin st ip)
      (by rw [hf.2.2.2.2.2.2, hd]) (by rw [hf.1]; exact hec)
      (by rw [hf.2.1]; exact hen) (by rw [hf.2.2.1, hind])

theorem pd_idleRun3 (ls : List Str)
    (h : ∀ l ∈ ls, containsSub sENDNETS l = false ∧ searchNetName l = none) :
    ∀ st : PdState, st.done = false → ¬(st.expectedComponents = -1) →
      ¬(st.expectedNets = -1) → st.inNetDetails = false →
      ls.foldl pdStep st = st := by
  induction ls with
  | nil => intro st _ _ _ _; rfl
  | cons l t ih =>
    intro st hd hec hen hind
    rw [List.foldl_cons, pd_idle3 st l hd hec hen (h l (by simp)).1 hind (h l (by simp)).2]
    exact ih (fun x hx => h x (by simp [hx])) st hd hec hen hind

theorem pd_idle2Run (ls : List Str)
    (h : ∀ l ∈ ls, searchCompRec l = none ∧ anchoredNetsCount l = none) :
    ∀ st : PdState, st.done = false → ¬(st.expectedComponents = -1) →
      st.expectedNets = -1 →
      ls.foldl pdStep st = st := by
  induction ls with
  | nil => intro st _ _ _; rfl
  | cons l t ih =>
    intro st hd hec hen
    rw [List.foldl_cons, pd_idle2 st l hd hec hen (h l (by simp)).1 (h l (by simp)).2]
    exact ih (fun x hx => h x (by simp [hx])) st hd hec hen

theorem pd_preRun (ls : List Str) (h : ∀ l ∈ ls, searchCompCount l = none) :
    ∀ st : PdState, st.done = false → st.expectedComponents = -1 →
      ls.foldl pdStep st = st := by
  induction ls with
  | nil => intro st _ _; rfl
  | cons l t ih =>
    intro st hd hec
    rw [List.foldl_cons, pd_idle1 st l hd hec (h l (by simp))]
    exact ih (fun x hx => h x (by simp [hx])) st hd hec

theorem pd_postRun (ls : List Str) : ∀ st : PdState, st.done = true →
    ls.foldl pdStep st = st := by
  induction ls with
  | nil => intro st _; rfl
  | cons l t ih =>
    intro st hd
    rw [List.foldl_cons, pd_done st l hd]
    exact ih st hd

/-- Effect of one whole rendered net record on the DEF parser state. -/
theorem pd_netRec (n : NetRec) (hwf : wfNetRec n) (st : PdState)
    (hd : st.done = false) (hec : ¬(st.expectedComponents = -1))
    (hen : ¬(st.expectedNets = -1)) (hind : st.inNetDetails = false) :
    ((netLines n).foldl pdStep st).done = false ∧
    ((netLines n).foldl pdStep st).expectedComponents = st.expectedComponents ∧
    ((netLines n).foldl pdStep st).expectedNets = st.expectedNets ∧
    ((netLines n).foldl pdStep st).inNetDetails = false ∧
    ∀ i p, lookup2 ((netLines n).foldl pdStep st).instanceNets i p =
      (lastBindingL (n.pins.map (fun ip => (ip, n.name))) i p).or
        (lookup2 st.instanceNets i p) := by
  obtain ⟨w1, w2, w3, w4, w5, w6, w7⟩ := hwf
  have hhead := pd_netHead st (netHeadLine n.name) n.name hd hec hen w4 hind w2
  set st1 : PdState := ({ st with
    curNet := some n.name,
    nets := st.nets ++ [n.name],
    netInstances := updA st.netInstances n.name [],
    inNetDetails := true }) with hst1
  have e0 : (netLines n).foldl pdStep st =
      [semiLine].foldl pdStep (n.tail.foldl pdStep
        ((n.pins.map renderPinLine).foldl pdStep st1)) := by
    rw [show netLines n =
        netHeadLine n.name :: ((n.pins.map renderPinLine ++ n.tail) ++ [semiLine]) from rfl,
      List.foldl_cons, hhead, List.foldl_append, List.foldl_append]
  have hp1 : (n.pins.map renderPinLine).foldl pdStep st1 = n.pins.foldl pdPin st1 :=
    pd_pinLines n.pins w5 st1 hd hec hen rfl
  obtain ⟨⟨f1, f2, f3, f4, f5⟩, hlk⟩ := pdPin_run n.pins st1 n.name rfl
  set st2 := n.pins.foldl pdPin st1 with hst2
  have hd2 : st2.done = false := f5.trans hd
  have hec2 : ¬(st2.expectedComponents = -1) := by rw [f1]; exact hec
  have hen2 : ¬(st2.expectedNets = -1) := by rw [f2]; exact hen
  have hind2 : st2.inNetDetails = true := f3
  have hfinal : ∀ i p, lookup2 st2.instanceNets i p =
      (lastBindingL (n.pins.map (fun ip => (ip, n.name))) i p).or
        (lookup2 st.instanceNets i p) := by
    intro i p
    rw [hlk i p, lastBindingL_rec]
    by_cases h2 : n.pins.any (fun ip => decide (ip = (i, p))) = true
    · simp [h2]
    · rw [Bool.not_eq_true] at h2
      simp [h2]
  rw [e0, hp1]
  cases ht : n.tail with
  | nil =>
    rw [List.foldl_nil, List.foldl_cons, List.foldl_nil,
      pd_endTok st2 semiLine hd2 hec2 hen2 (by decide) hind2 (by decide)]
    exact ⟨hd2, f1, f2, rfl, hfinal⟩
  | cons t ts =>
    rw [ht] at w6 w7
    have hw6t := w6 t (by simp)
    have e1 : List.foldl pdStep st2 (t :: ts) =
        ts.foldl pdStep ({ st2 with inNetDetails := false }) := by
      rw [List.foldl_cons, pd_endTok st2 t hd2 hec2 hen2 hw6t.1 hind2 w7]
    have e2 : ts.foldl pdStep ({ st2 with inNetDetails := false }) =
        ({ st2 with inNetDetails := false }) :=
      pd_idleRun3 ts (fun x hx => ⟨(w6 x (by simp [hx])).1, (w6 x (by simp [hx])).2.1⟩)
        _ hd2 hec2 hen2 rfl
    have e3 : pdStep ({ st2 with inNetDetails := false }) semiLine =
        ({ st2 with inNetDetails := false }) :=
      pd_idle3 ({ st2 with inNetDetails := false }) semiLine hd2 hec2 hen2 (by decide)
        rfl (by decide)
    simp only [e1, e2, List.foldl_cons, e3, List.foldl_nil]
    exact ⟨hd2, f1, f2, trivial, hfinal⟩

/-- Effect of the whole rendered nets section on the parser state. -/
theorem pd_netsRun (nets : List NetRec) (h : ∀ n ∈ nets, wfNetRec n) :
    ∀ st : PdState, st.done = false → ¬(st.expectedComponents = -1) →
      ¬(st.expectedNets = -1) → st.inNetDetails = false →
      (((nets.map netLines).flatten.foldl pdStep st).done = false ∧
       ((nets.map netLines).flatten.foldl pdStep st).expectedComponents =
         st.expectedComponents ∧
       ((nets.map netLines).flatten.foldl pdStep st).expectedNets = st.expectedNets ∧
       ((nets.map netLines).flatten.foldl pdStep st).inNetDetails = false) ∧
      ∀ i p, lookup2 ((nets.map netLines).flatten.foldl pdStep st).instanceNets i p =
        (lastBindingL ((nets.map (fun n => n.pins.map (fun ip => (ip, n.name)))).flatten)
          i p).or (lookup2 st.instanceNets i p) := by
  induction nets with
  | nil =>
    intro st hd hec hen hind
    exact ⟨⟨hd, rfl, rfl, hind⟩, fun i p => by simp [lastBindingL]⟩
  | cons n rest ih =>
    intro st hd hec hen hind
    simp only [List.map_cons, List.flatten_cons, List.foldl_append]
    obtain ⟨g1, g2, g3, g4, glk⟩ := pd_netRec n (h n (by simp)) st hd hec hen hind
    obtain ⟨⟨r1, r2, r3, r4⟩, rlk⟩ := ih (fun x hx => h x (by simp [hx]))
      ((netLines n).foldl pdStep st) g1 (by rw [g2]; exact hec) (by rw [g3]; exact hen) g4
    refine ⟨⟨r1, r2.trans g2, r3.trans g3, r4⟩, ?_⟩
    intro i p
    rw [rlk i p, glk i p, lastBindingL_append, optionOr_assoc]

/-- Effect of the rendered components section on the parser state. -/
theorem pd_compsRun (ics : List (Str × Str)) (h : ∀ ic ∈ ics, wfCompRec ic) :
    ∀ st : PdState, st.done = false → ¬(st.expectedComponents = -1) →
      st.expectedNets = -1 →
      (((ics.map renderComp).foldl pdStep st).done = false ∧
       ((ics.map renderComp).foldl pdStep st).expectedComponents =
         st.expectedComponents ∧
       ((ics.map renderComp).foldl pdStep st).expectedNets = -1 ∧
       ((ics.map renderComp).foldl pdStep st).inNetDetails = st.inNetDetails) ∧
      ((∀ i p, lookup2 st.instanceNets i p = none) →
        ∀ i p, lookup2 ((ics.map renderComp).foldl pdStep st).instanceNets i p = none) := by
  induction ics with
  | nil =>
    intro st hd hec hen
    exact ⟨⟨hd, rfl, hen, rfl⟩, fun hn => hn⟩
  | cons ic rest ih =>
    intro st hd hec hen
    rw [List.map_cons, List.foldl_cons,
      pd_comp_rec st (renderComp ic) ic hd hec hen (h ic (by simp)).1 (h ic (by simp)).2.2.2]
    obtain ⟨⟨r1, r2, r3, r4⟩, rlk⟩ := ih (fun x hx => h x (by simp [hx]))
      ({ st with instances := updA st.instances ic.1 ic.2,
                 instanceNets := updA st.instanceNets ic.1 [] }) hd hec hen
    refine ⟨⟨r1, r2, r3, r4⟩, ?_⟩
    intro hnone
    refine rlk ?_
    intro i p
    show lookupA ((lookupA (updA st.instanceNets ic.1 []) i).getD []) p = none
    rw [lookupA_updA]
    by_cases hi : i = ic.1
    · rw [if_pos hi, Option.getD_some]
      rfl
    · rw [if_neg hi]
      exact hnone i p

/-- C10.  After DEF ingest of a well-formed rendered file, the instance-pin
index maps every endpoint to the net whose record appears LAST in file order
among those listing it (earlier bindings are silently overwritten); the
expression through which the chain tracer crosses a buffer output pin is
exactly that last-bound net.  The declaredness hypothesis keeps the embedding
on inputs where the Python assignment raises no `KeyError`. -/
theorem C10_last_binding_wins (D : DefFile) (NI : NetTable) (BN : AbsorbTable)
    (bc ts prog path : Str) (hwf : WfDef D NI BN bc ts prog path)
    (hdecl : ∀ n ∈ D.nets, ∀ ip ∈ n.pins, ip.1 = sPIN ∨ ip.1 ∈ D.comps.map Prod.fst) :
    (∀ i p, lookup2 (parseDEF (renderDef D)).instanceNets i p = lastBinding D i p) ∧
    (∀ i q, (lookupA ((lookupA (parseDEF (renderDef D)).instanceNets i).getD []) q).getD []
      = (lastBinding D i q).getD []) := by
  unfold WfDef at hwf
  obtain ⟨hpre, hmid, hpost, hcomps, hnets, hcne, hcdig, hccanon, hnne, hndig, hncanon,
    hch, hnh1, hnh2, hnh3, hf1, hf2, hf3, hf4⟩ := hwf
  have hmain : ∀ i p,
      lookup2 (parseDEF (renderDef D)).instanceNets i p = lastBinding D i p := by
    intro i p
    unfold parseDEF renderDef
    simp only [List.foldl_append, List.foldl_cons, List.foldl_nil]
    rw [pd_preRun D.pre (fun l hl => (hpre l hl).1) pdInit rfl rfl]
    rw [pd_header_comp pdInit (compHeaderLine D.compCountStr)
      (digitsVal D.compCountStr) rfl rfl hch]
    generalize hE2 : ({ pdInit with
      expectedComponents := Int.ofNat (digitsVal D.compCountStr) } : PdState) = E2
    have hdE2 : E2.done = false := by
      rw [← hE2]
      rfl
    have hecE2 : ¬(E2.expectedComponents = -1) := by
      rw [← hE2]
      show ¬((Int.ofNat (digitsVal D.compCountStr) : Int) = -1)
      rw [Int.ofNat_eq_natCast]
      omega
    have henE2 : E2.expectedNets = -1 := by
      rw [← hE2]
      rfl
    have hindE2 : E2.inNetDetails = false := by
      rw [← hE2]
      rfl
    have hnoneE2 : ∀ i p, lookup2 E2.instanceNets i p = none := by
      intro i p
      rw [← hE2]
      rfl
    obtain ⟨⟨c1, c2, c3, c4⟩, clk⟩ := pd_compsRun D.comps hcomps E2 hdE2 hecE2 henE2
    have c2x : ¬(((D.comps.map renderComp).foldl pdStep E2).expectedComponents = -1) := by
      rw [c2]
      exact hecE2
    rw [pd_idle2 ((D.comps.map renderComp).foldl pdStep E2) endCompLine c1 c2x c3
      (by decide) (by decide)]
    rw [pd_idle2Run D.mid (fun l hl => ⟨(hmid l hl).2, (hmid l hl).1.2.1⟩)
      ((D.comps.map renderComp).foldl pdStep E2) c1 c2x c3]
    rw [pd_nets_header ((D.comps.map renderComp).foldl pdStep E2)
      (netsHeaderLine D.netCountStr) (digitsVal D.netCountStr) c1 c2x c3 hnh3 hnh2]
    generalize hE4 : ({ (D.comps.map renderComp).foldl pdStep E2 with
      expectedNets := Int.ofNat (digitsVal D.netCountStr) } : PdState) = E4
    have hdE4 : E4.done = false := by rw [← hE4]; exact c1
    have hecE4 : ¬(E4.expectedComponents = -1) := by rw [← hE4]; exact c2x
    have henE4 : ¬(E4.expectedNets = -1) := by
      rw [← hE4]
      show ¬((Int.ofNat (digitsVal D.netCountStr) : Int) = -1)
      rw [Int.ofNat_eq_natCast]
      omega
    have hindE4 : E4.inNetDetails = false := by
      rw [← hE4]
      show ((D.comps.map renderComp).foldl pdStep E2).inNetDetails = false
      rw [c4]
      exact hindE2
    have hnoneE4 : ∀ i p, lookup2 E4.instanceNets i p = none := by
      intro i p
      rw [← hE4]
      exact clk hnoneE2 i p
    obtain ⟨⟨n1, n2, n3, n4⟩, nlk⟩ := pd_netsRun D.nets hnets E4 hdE4 hecE4 henE4 hindE4
    have n2x : ¬(((D.nets.map netLines).flatten.foldl pdStep E4).expectedComponents
        = -1) := by
      rw [n2]
      exact hecE4
    have n3x : ¬(((D.nets.map netLines).flatten.foldl pdStep E4).expectedNets = -1) := by
      rw [n3]
      exact henE4
    rw [pd_endnets ((D.nets.map netLines).flatten.foldl pdStep E4) endNetsLine n1 n2x n3x
      (by decide)]
    rw [pd_postRun D.post ({ (D.nets.map netLines).flatten.foldl pdStep E4 with
      done := true }) rfl]
    show lookup2 ((D.nets.map netLines).flatten.foldl pdStep E4).instanceNets i p =
      lastBinding D i p
    rw [nlk i p, hnoneE4 i p, Option.or_none]
    rfl
  refine ⟨hmain, ?_⟩
  intro i q
  rw [show lookupA ((lookupA (parseDEF (renderDef D)).instanceNets i).getD []) q =
    lookup2 (parseDEF (renderDef D)).instanceNets i q from rfl, hmain i q]

/-! ## A concrete design used to instantiate the conditional theorems -/

def bcS : Str := "FE".data

def tsS : Str := "2024-01-01 00:00:00".data

def progS : Str := "delete_buffers".data

def pathS : Str := "design.def".data

def nRec1 : NetRec := ⟨"n1".data, [("A1".data, "Y".data), ("FE_1".data, "A".data)], []⟩

def nRec2 : NetRec := ⟨"n2".data, [("FE_1".data, "Y".data), ("B1".data, "I".data)], []⟩

def nRec3 : NetRec := ⟨"n3".data, [("A1".data, "Y".data), ("B1".data, "I".data)], []⟩

def defS1 : DefFile :=
  ⟨["VERSION 5.8 ;\n".data], "3".data,
   [("FE_1".data, "BUF".data), ("B1".data, "INV".data), ("A1".data, "ND2".data)],
   [], "3".data, [nRec1, nRec2, nRec3], ["END DESIGN\n".data]⟩

def NI1 : NetTable :=
  [("n1".data, [("A1".data, "Y".data), ("FE_1".data, "A".data)]),
   ("n2".data, [("FE_1".data, "Y".data), ("B1".data, "I".data)]),
   ("n3".data, [("A1".data, "Y".data), ("B1".data, "I".data)])]

def BN1 : AbsorbTable := [("n1".data, ["n2".data])]

def inst1 : Assoc :=
  [("FE_1".data, "BUF".data), ("B1".data, "INV".data), ("A1".data, "ND2".data)]

def mac1 : NetTable :=
  [("BUF".data, [("A".data, "INPUT".data), ("Y".data, "OUTPUT".data)]),
   ("INV".data, [("I".data, "INPUT".data)]),
   ("ND2".data, [("Y".data, "OUTPUT".data)])]

def inets1 : NetTable :=
  [("FE_1".data, [("A".data, "n1".data), ("Y".data, "n2".data)]),
   ("B1".data, [("I".data, "n3".data)]),
   ("A1".data, [("Y".data, "n3".data)])]

def ord1 : List Str := ["n1".data, "n2".data]

def lefS1 : List Str :=
  ["MACRO BUF\n".data, "PIN A\n".data, "DIRECTION INPUT ;\n".data,
   "PIN Y\n".data, "DIRECTION OUTPUT ;\n".data, "END BUF\n".data,
   "MACRO INV\n".data, "PIN I\n".data, "DIRECTION INPUT ;\n".data, "END INV\n".data,
   "MACRO ND2\n".data, "PIN Y\n".data, "DIRECTION OUTPUT ;\n".data, "END ND2\n".data]

theorem wfN1 : wfNetRec nRec1 := by
  simp only [wfNetRec, wfNetLine, nRec1, List.forall_mem_cons, List.not_mem_nil,
    false_implies, implies_true, and_true, true_and]
  decide

theorem wfN2 : wfNetRec nRec2 := by
  simp only [wfNetRec, wfNetLine, nRec2, List.forall_mem_cons, List.not_mem_nil,
    false_implies, implies_true, and_true, true_and]
  decide

theorem wfN3 : wfNetRec nRec3 := by
  simp only [wfNetRec, wfNetLine, nRec3, List.forall_mem_cons, List.not_mem_nil,
    false_implies, implies_true, and_true, true_and]
  decide

theorem wfS1 : WfDef defS1 NI1 BN1 bcS tsS progS pathS := by
  refine ⟨?_, ?_, ?_, ?_, ?_, ?_, ?_, ?_, ?_, ?_, ?_, ?_, ?_, ?_, ?_, ?_, ?_, ?_, ?_⟩
  · simp only [defS1, plainLine, List.forall_mem_cons, List.not_mem_nil, false_implies,
      implies_true, and_true, true_and]
    decide
  · intro l hl
    exact absurd hl (List.not_mem_nil l)
  · simp only [defS1, List.forall_mem_cons, List.not_mem_nil, false_implies,
      implies_true, and_true, true_and]
    decide
  · simp only [defS1, wfCompRec, List.forall_mem_cons, List.not_mem_nil, false_implies,
      implies_true, and_true, true_and]
    decide
  · intro n hn
    simp only [defS1, List.mem_cons, List.not_mem_nil, or_false] at hn
    rcases hn with rfl | rfl | rfl
    exacts [wfN1, wfN2, wfN3]
  · decide
  · decide
  · decide
  · decide
  · decide
  · decide
  · decide
  · decide
  · decide
  · decide
  · decide
  · decide
  · decide
  · decide

theorem C2_amended_witness :
    (deleteBuffers (renderDef defS1) bcS tsS progS pathS NI1 BN1 =
      specOutput defS1 NI1 BN1 bcS tsS progS pathS) ∧
    (∀ ic ∈ keptComps defS1 bcS, startsWithL bcS ic.1 = false) ∧
    (∀ n ∈ defS1.nets, ∀ ip ∈ outPins BN1 ((BN1.map Prod.snd).flatten) NI1 bcS n,
      startsWithL bcS ip.1 = false) :=
  C2_amended defS1 NI1 BN1 bcS tsS progS pathS wfS1 (by decide)

theorem C4_witness :
    identifyBufferedNets 2 NI1 bcS inst1 mac1 inets1 ord1 = some BN1 ∧
    (("n1".data ∈ BN1.map Prod.fst ↔ "n1".data ∈ ord1 ∧
        isChainHeadB NI1 inst1 mac1 bcS ("n1".data) = true) ∧
      (isChainHeadB NI1 inst1 mac1 bcS ("n1".data) = true ↔
        ∃ ip ∈ (lookupA NI1 ("n1".data)).getD [], ¬(ip.1 = sPIN) ∧
          startsWithL bcS ip.1 = false ∧
          (lookupA ((lookupA mac1 ((lookupA inst1 ip.1).getD [])).getD []) ip.2).getD []
            = sOUTPUT)) :=
  ⟨by decide, C4_chain_head_classification 2 NI1 inst1 mac1 inets1 bcS ord1 BN1 (by decide)
    ("n1".data)⟩

theorem C5_witness :
    deleteBuffers (renderDef defS1) bcS tsS progS pathS NI1 BN1 =
      specOutput defS1 NI1 BN1 bcS tsS progS pathS ∧
    repC defS1 bcS = sCOMPONENTSsp ++ natToStr ((keptComps defS1 bcS).length) ∧
    repN defS1 BN1 ((BN1.map Prod.snd).flatten) = sNETSsp ++ natToStr
      ((defS1.nets.filter
        (fun n => !(memStr ((BN1.map Prod.snd).flatten) n.name))).length) :=
  C5_count_consistency defS1 NI1 BN1 bcS tsS progS pathS wfS1 (by decide) (by decide)
    (by decide)
    (by intro k hk
        rw [show BN1.map Prod.fst = ["n1".data] from rfl, List.mem_singleton] at hk
        rw [hk]
        decide)
    (by decide) (by decide)
    (by intro x hx
        rw [show (BN1.map Prod.snd).flatten = ["n2".data] from rfl,
          List.mem_singleton] at hx
        rw [hx]
        decide)
    (by intro k hk
        rw [show BN1.map Prod.fst = ["n1".data] from rfl, List.mem_singleton] at hk
        rw [hk]
        decide)

theorem C6_witness :
    (∃ X Y, deleteBuffers (renderDef defS1) bcS tsS progS pathS NI1 BN1 =
      X ++ (netLines nRec3).flatten ++ Y) ∧
    (∃ X2 Y2, renderDef defS1 = X2 ++ netLines nRec3 ++ Y2) :=
  C6_nonchain_verbatim defS1 NI1 BN1 bcS tsS progS pathS wfS1 nRec3
    (by show nRec3 ∈ [nRec1, nRec2, nRec3]
        exact List.Mem.tail _ (List.Mem.tail _ (List.Mem.head _)))
    (by decide) (by decide)

theorem C7_determinism_witness :
    (runPipelineWith 3 lefS1 (renderDef defS1) bcS tsS progS pathS
        ["n1".data, "n2".data]).isSome = true ∧
    (runPipelineWith 3 lefS1 (renderDef defS1) bcS tsS progS pathS
        ["n1".data, "n2".data]).getD [] =
      (runPipelineWith 3 lefS1 (renderDef defS1) bcS tsS progS pathS
        ["n2".data, "n1".data]).getD [] :=
  ⟨by decide, C7_determinism 3 lefS1 (renderDef defS1) bcS tsS progS pathS
    ["n1".data, "n2".data] ["n2".data, "n1".data] (by decide) (by decide)
    (fun x => by simp only [List.mem_cons, List.not_mem_nil, or_false]; tauto)
    ((runPipelineWith 3 lefS1 (renderDef defS1) bcS tsS progS pathS
        ["n1".data, "n2".data]).getD [])
    ((runPipelineWith 3 lefS1 (renderDef defS1) bcS tsS progS pathS
        ["n2".data, "n1".data]).getD [])
    (by decide) (by decide)⟩

theorem C10_witness :
    lastBinding defS1 ("A1".data) ("Y".data) = some ("n3".data) ∧
    ((∀ i p, lookup2 (parseDEF (renderDef defS1)).instanceNets i p =
        lastBinding defS1 i p) ∧
     (∀ i q, (lookupA ((lookupA (parseDEF (renderDef defS1)).instanceNets i).getD [])
        q).getD [] = (lastBinding defS1 i q).getD [])) :=
  ⟨by decide, C10_last_binding_wins defS1 NI1 BN1 bcS tsS progS pathS wfS1 (by decide)⟩
